import Mathlib

/-!
A verification development for the connection-management subsystem of
neurodamus (`src/neurodamus/connection_manager.py`).

The Python classes `ConnectionSet`, `ConnectionManagerBase`,
`SynapseRuleManager` are shallowly embedded as Lean structures and pure
functions.  Python dictionaries (including `collections.defaultdict`, whose
reads insert missing keys) are embedded as association lists in insertion
order, with the read-inserts made explicit by state passing.  In-place
mutation of `Connection` objects obtained by reference from a list is
embedded by returning the index of the object together with its value and
writing the updated value back at that index.

External collaborators that are not part of the repository sources
(`SynapseReader`, `TargetManager` targets, the per-engine `Connection`
aggregate, `MPI`) are modelled from the spec as opaque function parameters
or as plain records carrying the attributes the spec assigns to them.
-/

namespace Neurodamus

/-- One row of a synapse-parameter table as returned by the external
`SynapseReader.get_synapse_parameters`.  Per the spec the table is sorted
ascending by its leading "source id" field; `synType` supports the
synapse-type restriction of `connect_group`. -/
structure SynParams where
  sgid : Int
  synType : Int
deriving DecidableEq, Repr

/-- Modelled from the spec: the `Connection` entity (module
`neurodamus.connection`, absent from the sources).  Only its contract
matters here: source/target gids, its population-id pair, a weight factor,
a lock flag, a disabled flag and an ordered list of synapse placements.
Synapse placements are kept as (parameter row, synapse id) pairs; the
integration point produced by `TargetManager.locationToPoint` is an
external concern and is not recorded.  The aggregate-source variant whose
`sgid` is Python `None` is outside this model: all source ids are integers. -/
structure Connection where
  sgid : Int
  tgid : Int
  src_pop_id : Int
  dst_pop_id : Int
  weight_factor : Rat
  locked : Bool
  disabled : Bool
  synapses : List (SynParams × Nat)
deriving DecidableEq, Repr

/-- Modelled from the spec: the `conn_factory` used by
`ConnectionSet.get_or_create_connection` builds a fresh `Connection` for
`(sgid, tgid)` carrying the set's population ids.  A fresh connection has
no synapses and is neither locked nor disabled; the engine keyword
arguments (weight factor, synapse mode) are fixed at their defaults since
no claim varies them. -/
def mkConnection (sgid tgid src_pop dst_pop : Int) : Connection :=
  { sgid := sgid, tgid := tgid, src_pop_id := src_pop, dst_pop_id := dst_pop,
    weight_factor := 1, locked := false, disabled := false, synapses := [] }

/-- Modelled from the spec: `population_id` attribute of a `Connection`
(the `(src, dst)` population pair it was created under). -/
def Connection.population_id (c : Connection) : Int × Int :=
  (c.src_pop_id, c.dst_pop_id)

/-- Modelled from the spec: `Connection.disable(also_zero_conductance)`
sets the disabled flag (conductance zeroing acts on engine-level synapse
objects outside this model, and every claim uses the default `False`). -/
def Connection.disableConn (c : Connection) (_alsoZeroConductance : Bool) : Connection :=
  { c with disabled := true }

/-- Modelled from the spec: `Connection.enable()` clears the disabled flag. -/
def Connection.enableConn (c : Connection) : Connection :=
  { c with disabled := false }

/-! ### Association-list maps

Python `dict` preserves insertion order; `defaultdict(list)` additionally
inserts an empty list when a missing key is read.  Keys are looked up and
updated at their first (unique, by construction) occurrence. -/

/-- Lookup in an insertion-ordered association list (`dict.get`). -/
def alistGet? {κ α : Type} [DecidableEq κ] : List (κ × α) → κ → Option α
  | [], _ => none
  | (k, v) :: rest, key => if k = key then some v else alistGet? rest key

/-- Replace the value at a key (in-place mutation of a `dict` entry).
Leaves the list unchanged when the key is absent (all call sites access
the key first, which materializes it). -/
def alistSet {κ α : Type} [DecidableEq κ] : List (κ × α) → κ → α → List (κ × α)
  | [], _, _ => []
  | (k, v) :: rest, key, w =>
    if k = key then (k, w) :: rest else (k, v) :: alistSet rest key w

/-- `defaultdict` read: return the stored value, or insert `dflt` at the
end (Python dict insertion order) and return it. -/
def alistGetD {κ α : Type} [DecidableEq κ] (m : List (κ × α)) (key : κ) (dflt : α) :
    α × List (κ × α) :=
  match alistGet? m key with
  | some v => (v, m)
  | none => (dflt, m ++ [(key, dflt)])

/-- Modelled from the spec: `bin_search` from `neurodamus.utils` (module
absent from the sources).  Per the spec it binary-searches the target's
sequence, ordered by `sgid`, and returns the found index or the correct
insertion index: the lower-bound position, i.e. the first index whose key
is not below the searched key.  It is embedded as the (extensionally
equal, on sorted input) linear lower bound. -/
def bin_search : List Connection → Int → Nat
  | [], _ => 0
  | c :: rest, sgid => if c.sgid < sgid then bin_search rest sgid + 1 else 0

/-- `numpy.searchsorted(keys, v)` (left side): lower-bound insertion index. -/
def lowerBound : List Int → Int → Nat
  | [], _ => 0
  | k :: rest, v => if k < v then lowerBound rest v + 1 else 0

/-- `numpy.searchsorted(keys, vs)`: one lower-bound index per searched value. -/
def np_searchsorted (keys : List Int) (vs : List Int) : List Nat :=
  vs.map (lowerBound keys)

/-- `numpy.delete(l, idxs, axis=0)`: drop the elements whose index occurs
in `idxs` (mask semantics; duplicate indices are dropped once).  numpy
raises on an out-of-range index, which no claim exercises and which is not
modelled: out-of-range indices select nothing here. -/
def np_delete (l : List Connection) (idxs : List Nat) : List Connection :=
  l.enum.filterMap fun ic => if ic.1 ∈ idxs then none else some ic.2

/-! ### ConnectionSet -/

/-- `ConnectionSet.__init__`: connections indexed by post-gid then ordered
by pre-gid.  `connections_map` embeds the `defaultdict(list)`
`_connections_map`; `conn_count` embeds `_conn_count` (a Python int that
bulk deletion may decrement, hence `Int`). -/
structure ConnectionSet where
  src_id : Int
  dst_id : Int
  connections_map : List (Int × List Connection)
  conn_count : Int
deriving DecidableEq, Repr

namespace ConnectionSet

/-- A freshly constructed `ConnectionSet` for a population pair. -/
def init (src_id dst_id : Int) : ConnectionSet :=
  { src_id := src_id, dst_id := dst_id, connections_map := [], conn_count := 0 }

/-- `ConnectionSet.__contains__`: membership in the underlying dict keys. -/
def containsTgid (cs : ConnectionSet) (item : Int) : Bool :=
  (alistGet? cs.connections_map item).isSome

/-- `ConnectionSet.count`. -/
def count (cs : ConnectionSet) : Int := cs.conn_count

/-- `ConnectionSet._find_connection`: the defaultdict read of the target's
sequence (which inserts a missing key), a binary search, and the
exactness check.  Returns the sequence, the found index (or `none`), and
the set after the read. -/
def _find_connection (cs : ConnectionSet) (sgid tgid : Int) (exact : Bool := true) :
    (List Connection × Option Nat) × ConnectionSet :=
  let lm := alistGetD cs.connections_map tgid []
  let cell_conns := lm.1
  let pos := if cell_conns.isEmpty then 0 else bin_search cell_conns sgid
  let found :=
    if exact && (pos == cell_conns.length
        || ((cell_conns.get? pos).map Connection.sgid != some sgid)) then
      none
    else some pos
  ((cell_conns, found), { cs with connections_map := lm.2 })

/-- `ConnectionSet.get_connection`, kept with the index of the found
object so that in-place mutations through the returned reference can be
written back. -/
def get_connection_core (cs : ConnectionSet) (sgid tgid : Int) :
    Option (Connection × Nat) × ConnectionSet :=
  let r := cs._find_connection sgid tgid
  match r.1.2 with
  | none => (none, r.2)
  | some i =>
    match r.1.1.get? i with
    | some c => (some (c, i), r.2)
    | none => (none, r.2)

/-- `ConnectionSet.get_connection`: the connection for a (pre, post) gid
pair, or `none`. -/
def get_connection (cs : ConnectionSet) (sgid tgid : Int) :
    Option Connection × ConnectionSet :=
  let r := cs.get_connection_core sgid tgid
  (r.1.map Prod.fst, r.2)

/-- The branch logic of `get_or_create_connection` on one target
sequence.  Mirrors the source: an empty sequence creates immediately; the
last element is checked first (optimized for ordered bulk insertion and
the equal case); a larger search key appends; otherwise a binary search
finds the existing entry or the sorted insertion position.  (The fall
back when the searched index is past the sequence, an `IndexError` in
Python, is unreachable on sorted data since the last element is not below
the key.)  Returns the connection, its index in the resulting sequence,
the resulting sequence and whether a new connection was created. -/
def gocList (conns : List Connection) (sgid tgid src_id dst_id : Int) :
    (Connection × Nat) × (List Connection × Bool) :=
  match conns.getLast? with
  | none =>
    let c := mkConnection sgid tgid src_id dst_id
    ((c, 0), ([c], true))
  | some last_conn =>
    if last_conn.sgid = sgid then
      ((last_conn, conns.length - 1), (conns, false))
    else if last_conn.sgid < sgid then
      let c := mkConnection sgid tgid src_id dst_id
      ((c, conns.length), (conns ++ [c], true))
    else
      let pos := bin_search conns sgid
      match conns.get? pos with
      | some cAt =>
        if cAt.sgid = sgid then ((cAt, pos), (conns, false))
        else
          let c := mkConnection sgid tgid src_id dst_id
          ((c, pos), (conns.insertIdx pos c, true))
      | none =>
        let c := mkConnection sgid tgid src_id dst_id
        ((c, pos), (conns.insertIdx pos c, true))

/-- `ConnectionSet.get_or_create_connection`, kept with the index at which
the returned connection lives in its target sequence (the Python function
returns the object itself; the index materializes that reference).  The
defaultdict read of the target's sequence and the write-back of the
in-place list mutation wrap the branch logic of `gocList`. -/
def get_or_create_core (cs : ConnectionSet) (sgid tgid : Int) :
    (Connection × Nat) × ConnectionSet :=
  let lm := alistGetD cs.connections_map tgid []
  let r := gocList lm.1 sgid tgid cs.src_id cs.dst_id
  if r.2.2 then
    (r.1, { cs with connections_map := alistSet lm.2 tgid r.2.1,
                    conn_count := cs.conn_count + 1 })
  else
    (r.1, { cs with connections_map := lm.2 })

/-- `ConnectionSet.get_or_create_connection`: returns a connection by
(pre, post) gid, creating it if required. -/
def get_or_create_connection (cs : ConnectionSet) (sgid tgid : Int) :
    Connection × ConnectionSet :=
  let r := cs.get_or_create_core sgid tgid
  (r.1.1, r.2)

/-- In-place mutation of the connection object at index `i` of the target
sequence of `tgid` (Python mutates the aliased object; this writes the
new value back at its index). -/
def setConnAt (cs : ConnectionSet) (tgid : Int) (i : Nat) (c : Connection) : ConnectionSet :=
  match alistGet? cs.connections_map tgid with
  | some l => { cs with connections_map := alistSet cs.connections_map tgid (l.set i c) }
  | none => cs

/-- Observation function used by the theorems (not a source method): the
connection stored for the pair `(sgid, tgid)`, if any.  No defaultdict
side effect. -/
def findPair (cs : ConnectionSet) (sgid tgid : Int) : Option Connection :=
  (alistGet? cs.connections_map tgid).bind fun l => l.find? fun c => c.sgid == sgid

/-- `ConnectionSet.ids_match`: whether a population-id selector matches
this set (`none` components are wildcards). -/
def ids_match (cs : ConnectionSet) (expr_src expr_dst : Option Int) : Bool :=
  (expr_src.all fun s => s == cs.src_id) && (expr_dst.all fun d => d == cs.dst_id)

end ConnectionSet

/-! ### Bulk deletion (`delete_group` / `_find_connections`)

The Python `post_gids` argument is `None`, an `int` or a list, dispatched
by `isinstance` checks; likewise `pre_gids`. -/

/-- The shapes a post-gid group selector can take. -/
inductive GidSel where
  | all : GidSel
  | one : Int → GidSel
  | many : List Int → GidSel
deriving DecidableEq, Repr

/-- The target sequences selected by `_find_connections`: all map values
in insertion order, a single defaultdict read, or one defaultdict read per
listed gid.  Returns the selected keys and the map after the reads (the
reads insert missing keys). -/
def selectPostKeys (m : List (Int × List Connection)) :
    GidSel → List Int × List (Int × List Connection)
  | .all => (m.map Prod.fst, m)
  | .one g => ([g], (alistGetD m g []).2)
  | .many gs => (gs, gs.foldl (fun mm g => (alistGetD mm g []).2) m)

/-- `_find_connections`: the deletion indices within one target sequence.
With `pre_gids = None` every index is selected; otherwise each searched
pre-gid contributes its `numpy.searchsorted` lower-bound index. -/
def deletionIndices (conns : List Connection) : GidSel → List Nat
  | .all => List.range conns.length
  | .one g => np_searchsorted (conns.map Connection.sgid) [g]
  | .many gs => np_searchsorted (conns.map Connection.sgid) gs

namespace ConnectionSet

/-- `ConnectionSet.delete_group`: for every selected target sequence,
compact it through `numpy.delete` at the computed indices and decrement
the count by the number of indices. -/
def delete_group (cs : ConnectionSet) (post_gids : GidSel) (pre_gids : GidSel) :
    ConnectionSet :=
  let sel := selectPostKeys cs.connections_map post_gids
  sel.1.foldl
    (fun acc t =>
      let conns := (alistGet? acc.connections_map t).getD []
      let indices := deletionIndices conns pre_gids
      { acc with
        connections_map := alistSet acc.connections_map t (np_delete conns indices),
        conn_count := acc.conn_count - indices.length })
    { cs with connections_map := sel.2 }

end ConnectionSet

/-! ### The streaming loader (`_iterate_conn_params`) -/

/-- A target object as served by the external `TargetManager`: membership
(`contains`) and membership including off-rank cells (`completeContains`). -/
structure Target where
  containsGid : Int → Bool
  completeContainsGid : Int → Bool

/-- The external `SynapseReader`: one ordered synapse-parameter table per
target cell (`get_synapse_parameters`). -/
def Reader : Type := Int → List SynParams

/-- Destination filter of the iterator: `dst_target is None` admits every
gid, otherwise `dst_target.contains(tgid)` must hold. -/
def dstAdmits : Option Target → Int → Bool
  | none, _ => true
  | some tg, gid => tg.containsGid gid

/-- Source filter of the iterator: `src_target is None` admits every run,
otherwise `src_target.completeContains(sgid)` must hold. -/
def srcAdmits : Option Target → Int → Bool
  | none, _ => true
  | some tg, gid => tg.completeContainsGid gid

/-- The run-detection loop of `_iterate_conn_params` over one target's
table: starting at offset `cur_i`, take the maximal run of rows sharing
the leading source id (the `numpy.argmax` scan for the first differing
row, falling back to the table end when every remaining row matches) and
continue past it.  Yields `(sgid, run, run start offset)`. -/
def runsFrom : List SynParams → Nat → List (Int × List SynParams × Nat)
  | [], _ => []
  | row :: rest, cur_i =>
    let run := row :: rest.takeWhile fun r => r.sgid == row.sgid
    (row.sgid, run, cur_i) ::
      runsFrom (rest.dropWhile fun r => r.sgid == row.sgid) (cur_i + run.length)
  termination_by rows _ => rows.length
  decreasing_by
    simp only [List.length_cons]
    exact Nat.lt_succ_of_le (List.dropWhile_sublist _).length_le

/-- `ConnectionManagerBase._iterate_conn_params`: for every gid passing
the destination filter, fetch its table once and yield every maximal
same-source run passing the source filter as
`(sgid, tgid, record slice, slice start offset)`.  The
created-connections accounting done when the Python generator is
exhausted lives in the consuming operation (`Manager.connect_group`). -/
def _iterate_conn_params (reader : Reader) (src_target dst_target : Option Target)
    (gids : List Int) : List (Int × Int × List SynParams × Nat) :=
  (gids.filter (dstAdmits dst_target)).flatMap fun tgid =>
    (runsFrom (reader tgid) 0).filterMap fun run =>
      if srcAdmits src_target run.1 then some (run.1, tgid, run.2.1, run.2.2) else none

/-- `ConnectionManagerBase._add_synapses`: enumerate the slice rows,
skip rows whose synapse type fails the restriction, and attach each
remaining row with synapse id `base_id + i`.  The `locationToPoint`
resolution is an external `TargetManager` concern and is not recorded. -/
def _add_synapses (cur_conn : Connection) (syns_params : List SynParams)
    (syn_type_restrict : Option Int) (base_id : Nat) : Connection :=
  { cur_conn with
    synapses := cur_conn.synapses ++ syns_params.enum.filterMap fun ip =>
      match syn_type_restrict with
      | some r => if ip.2.synType != r then none else some (ip.2, base_id + ip.1)
      | none => some (ip.2, base_id + ip.1) }

/-! ### ConnectionManagerBase -/

/-- The manager state: the population registry `_populations` (keyed by
`(src, dst)` population-id pairs, insertion ordered), the key of the
current population `_cur_population` (a live object reference in Python,
materialized as its registry key), the disabled registry
`_disabled_conns` (a `defaultdict(list)` keyed by target gid),
`_total_connections` and the rank's local gids.  The external reader
handle and collaborator managers are passed to the operations needing
them. -/
structure Manager where
  populations : List ((Int × Int) × ConnectionSet)
  cur_pop : Int × Int
  disabled_conns : List (Int × List Connection)
  total_connections : Int
  local_gids : List Int
deriving DecidableEq, Repr

namespace Manager

/-- A manager as built by `ConnectionManagerBase.__init__`: the default
population pair `(0, 0)` is instantiated immediately. -/
def init (local_gids : List Int) : Manager :=
  { populations := [((0, 0), ConnectionSet.init 0 0)], cur_pop := (0, 0),
    disabled_conns := [], total_connections := 0, local_gids := local_gids }

/-- The population stored under a registry key (every dereference of a
population object in the embedding goes through its key). -/
def getPopD (m : Manager) (k : Int × Int) : ConnectionSet :=
  (alistGet? m.populations k).getD (ConnectionSet.init k.1 k.2)

/-- The current population object. -/
def curPop (m : Manager) : ConnectionSet := m.getPopD m.cur_pop

/-- Write an updated population back under its registry key. -/
def setPop (m : Manager) (k : Int × Int) (p : ConnectionSet) : Manager :=
  { m with populations := alistSet m.populations k p }

/-- The shapes a population-id selector can take: `None`, a bare source
id, or a `(src, dst)` pair whose components may each be `None`. -/
inductive PopSel where
  | all : PopSel
  | srcOnly : Int → PopSel
  | pair : Option Int → Option Int → PopSel
deriving DecidableEq, Repr

/-- `ConnectionManagerBase.find_populations`: a fully specified pair is a
direct registry access (a miss raises `KeyError` in Python, which no
claim exercises and is embedded as an empty selection); any other
selector filters the registry through `ids_match`. -/
def find_populations (m : Manager) : PopSel → List ((Int × Int) × ConnectionSet)
  | .pair (some s) (some d) =>
    match alistGet? m.populations (s, d) with
    | some p => [((s, d), p)]
    | none => []
  | .pair s d => m.populations.filter fun kp => kp.2.ids_match s d
  | .srcOnly i => m.populations.filter fun kp => kp.2.ids_match (some i) none
  | .all => m.populations.filter fun kp => kp.2.ids_match none none

/-- The body of the `connect_group` loop for one yielded
`(sgid, tgid, slice, offset)` group: create or fetch the connection, skip
it entirely when already locked, otherwise attach the slice's synapses
and set the lock. -/
def processGroup (syn_type_restrict : Option Int) (pop : ConnectionSet)
    (g : Int × Int × List SynParams × Nat) : ConnectionSet :=
  let r := pop.get_or_create_core g.1 g.2.1
  let cur_conn := r.1.1
  if cur_conn.locked then r.2
  else
    let c := { _add_synapses cur_conn g.2.2.1 syn_type_restrict g.2.2.2 with locked := true }
    r.2.setConnAt g.2.1 r.1.2 c

/-- `ConnectionManagerBase.connect_group`: resolve the pathway targets
(name resolution through `TargetSpec` and `TargetManager.getTarget` is
external and received here as the resolved targets), stream the grouped
records over the local gids, process every group against the current
population, and account the created connections into
`_total_connections` (the tail of the Python generator). -/
def connect_group (m : Manager) (reader : Reader) (src_target dst_target : Option Target)
    (synapse_type_restrict : Option Int) : Manager :=
  let pop := m.curPop
  let created_conns_0 := pop.count
  let groups := _iterate_conn_params reader src_target dst_target m.local_gids
  let pop2 := groups.foldl (processGroup synapse_type_restrict) pop
  let m2 := m.setPop m.cur_pop pop2
  { m2 with total_connections := m2.total_connections + (pop2.count - created_conns_0) }

/-- Append to the disabled registry (`self._disabled_conns[tgid].append(c)`:
a defaultdict read followed by an in-place append). -/
def registryAppend (reg : List (Int × List Connection)) (tgid : Int) (c : Connection) :
    List (Int × List Connection) :=
  let lr := alistGetD reg tgid []
  alistSet lr.2 tgid (lr.1 ++ [c])

/-- The `disable` loop over the matched populations.  For each one the
connection is looked up; a missing pair leaves `c = None` and the
`c.disable(...)` dereference raises (`.error` carrying the state at the
raise); otherwise the connection object is disabled in place and appended
to the disabled registry. -/
def disableLoop (m : Manager) (sgid tgid : Int) (also_zero_conductance : Bool) :
    List (Int × Int) → Except Manager Manager
  | [] => .ok m
  | k :: ks =>
    let pop := m.getPopD k
    let r := pop.get_connection_core sgid tgid
    let m1 := m.setPop k r.2
    match r.1 with
    | none => .error m1
    | some ci =>
      let c := ci.1.disableConn also_zero_conductance
      let m2 := { m1.setPop k (r.2.setConnAt tgid ci.2 c) with
                  disabled_conns := registryAppend m1.disabled_conns tgid c }
      disableLoop m2 sgid tgid also_zero_conductance ks

/-- `ConnectionManagerBase.disable`: disable the `(sgid, tgid)` connection
in every population matched by the selector. -/
def disable (m : Manager) (sgid tgid : Int) (also_zero_conductance : Bool)
    (population_ids : PopSel) : Except Manager Manager :=
  m.disableLoop sgid tgid also_zero_conductance
    ((m.find_populations population_ids).map Prod.fst)

/-- Write-back of `Connection.enable()` invoked through the aliased
reference held by the disabled registry: the same object lives in its
population's target sequence, so the disabled flag is cleared there
(under the set invariant the `sgid` match identifies the object). -/
def enableInPop (m : Manager) (popkey : Int × Int) (sgid tgid : Int) : Manager :=
  match alistGet? m.populations popkey with
  | none => m
  | some pop =>
    match alistGet? pop.connections_map tgid with
    | none => m
    | some l =>
      let l2 := l.map fun c => if c.sgid == sgid then c.enableConn else c
      m.setPop popkey { pop with connections_map := alistSet pop.connections_map tgid l2 }

/-- `ConnectionManagerBase.reenable`: scan the disabled registry entry of
`tgid`, enable every connection matching `sgid` whose population pair is
among the matched populations, and compact the registry entry through
`numpy.delete` at the matched indices. -/
def reenable (m : Manager) (sgid tgid : Int) (population_ids : PopSel) : Manager :=
  let allowed := (m.find_populations population_ids).map fun kp => (kp.2.src_id, kp.2.dst_id)
  let dr := alistGetD m.disabled_conns tgid []
  let m0 : Manager := { m with disabled_conns := dr.2 }
  let hits := dr.1.enum.filter fun ic =>
    ic.2.sgid == sgid && decide (ic.2.population_id ∈ allowed)
  let m1 := hits.foldl (fun mm ic => mm.enableInPop ic.2.population_id sgid tgid) m0
  { m1 with
    disabled_conns :=
      alistSet m1.disabled_conns tgid (np_delete dr.1 (hits.map Prod.fst)) }

end Manager

/-! ### finalize -/

/-- `SynapseRuleManager._finalize_conns` for one target gid: iterate the
cell's connection list in reverse creation order (the hoc compatibility
requirement), invoke the per-connection instantiation callback
`conn.finalize(...)` (external; received as the predicate `f`, true when
the connection was instantiated) and count the instantiated connections.
The second component records the callback invocations in order. -/
def _finalize_conns (f : Connection → Bool) (conns : List Connection) :
    Nat × List Connection :=
  conns.reverse.foldl
    (fun acc c => (if f c then acc.1 + 1 else acc.1, acc.2 ++ [c])) (0, [])

/-- Phase 2 of `ConnectionManagerBase.finalize` on one rank: iterate every
population, then every locally owned target cell's connection list,
accumulating the local created-connection count.  The callback may depend
on the target gid (metype and spgid come from the cell manager). -/
def finalizeLocal (m : Manager) (f : Int → Connection → Bool) : Nat :=
  m.populations.foldl
    (fun n kp =>
      kp.2.connections_map.foldl
        (fun n2 tc => n2 + (_finalize_conns (f tc.1) tc.2).1) n)
    0

/-- Modelled from the spec: `MPI.allreduce(n, MPI.SUM)` (the `MPI`
collaborator is external).  The per-rank local counts are summed into the
global total every rank receives. -/
def mpiAllreduceSum (rank_counts : List Nat) : Nat := rank_counts.sum

/-- `ConnectionManagerBase.finalize` across a set of ranks: each rank
computes its local count and the counts are combined by the collective
sum reduction, whose value is returned.  (Phase 1, the release of the
streaming reader, concerns the external reader handle only.) -/
def finalizeGlobal (ranks : List Manager) (f : Int → Connection → Bool) : Nat :=
  mpiAllreduceSum (ranks.map fun m => finalizeLocal m f)

/-! ### create_connections -/

/-- Modelled from the spec together with the source of
`create_connections`: one declarative `Connection` block from the
simulation config.  `source`/`destination` are the rule's target names,
`weight` its optional weight scaling factor, `hasDelay` whether a
`Delay` key is present (delayed rules configure, never create) and
`noCreate` whether `CreateMode` is `NoCreate`. -/
structure ConnRule where
  source : String
  destination : String
  weight : Option Rat
  hasDelay : Bool
  noCreate : Bool
  synapseId : Option Int
deriving DecidableEq, Repr

/-- The synapse-creation calls `create_connections` performs: a
full-dataset `connect_all` fallback or one `connect_group` per applicable
rule. -/
inductive CreateAction where
  | connectAll : CreateAction
  | connectGroup : String → String → Option Int → CreateAction
deriving DecidableEq, Repr

/-- `ConnectionManagerBase.create_connections` as the trace of creation
calls it issues.  The rule filter (`TargetSpec(...).match_filter` against
the current population, from the external `io.cell_readers` module) is
received as the predicate `matchp`.  No matching rule falls back to a
full `connect_all`; a single matching rule of weight zero skips creation
entirely; otherwise every matching, non-delayed, non-`NoCreate` rule
yields one `connect_group` call. -/
def create_connections (rules : List ConnRule) (matchp : ConnRule → Bool) :
    List CreateAction :=
  let matching_conns := rules.filter matchp
  if matching_conns.isEmpty then [CreateAction.connectAll]
  else if matching_conns.length = 1 ∧ (matching_conns.head?.map ConnRule.weight) = some (some 0) then
    []
  else
    matching_conns.filterMap fun r =>
      if r.hasDelay then none
      else if r.noCreate then none
      else some (CreateAction.connectGroup r.source r.destination r.synapseId)

/-! ### Derived state and invariants used by the theorems -/

/-- Strict ascending order of a target sequence by source id. -/
def SortedBySgid (l : List Connection) : Prop :=
  l.Pairwise fun a b => a.sgid < b.sgid

instance (l : List Connection) : Decidable (SortedBySgid l) :=
  inferInstanceAs (Decidable (l.Pairwise _))

/-- The `ConnectionSet` invariant: registry keys are unique (it embeds a
dict) and every target sequence is strictly sorted by source id. -/
def ConnectionSet.WF (cs : ConnectionSet) : Prop :=
  (cs.connections_map.map Prod.fst).Nodup ∧
    ∀ p ∈ cs.connections_map, SortedBySgid p.2

instance (cs : ConnectionSet) : Decidable cs.WF :=
  inferInstanceAs (Decidable (_ ∧ _))

/-- A sequence of `get_or_create_connection` calls applied in order. -/
def applyGetOrCreate (cs : ConnectionSet) (ops : List (Int × Int)) : ConnectionSet :=
  ops.foldl (fun s op => (s.get_or_create_connection op.1 op.2).2) cs

/-! ## Helper lemmas -/

theorem alistGet?_append_self {κ α : Type} [DecidableEq κ] (m : List (κ × α)) (k : κ)
    (v : α) (h : alistGet? m k = none) : alistGet? (m ++ [(k, v)]) k = some v := by
  induction m with
  | nil => simp [alistGet?]
  | cons p rest ih =>
    rw [alistGet?] at h
    by_cases hk : p.1 = k
    · simp [hk] at h
    · rw [List.cons_append, alistGet?]
      simp only [hk, if_false] at h ⊢
      exact ih h

theorem bin_search_le (s : Int) : (l : List Connection) → bin_search l s ≤ l.length
  | [] => Nat.le_refl 0
  | c :: rest => by
    rw [bin_search]
    by_cases hc : c.sgid < s
    · simpa [hc] using Nat.succ_le_succ (bin_search_le s rest)
    · simp [hc]

theorem bin_search_eq_length {s : Int} {l : List Connection}
    (h : ∀ c ∈ l, c.sgid < s) : bin_search l s = l.length := by
  induction l with
  | nil => rfl
  | cons c rest ih =>
    rw [bin_search, if_pos (h c (List.mem_cons_self _ _))]
    rw [ih fun x hx => h x (List.mem_cons_of_mem c hx)]
    rfl

theorem bin_search_lt_length {s : Int} {last : Connection} :
    (l : List Connection) → l.getLast? = some last → ¬last.sgid < s →
      bin_search l s < l.length
  | [], hl, _ => by simp at hl
  | [c], hl, h => by
    simp only [List.getLast?_singleton, Option.some.injEq] at hl
    subst hl
    simp [bin_search, h]
  | c :: c2 :: rest, hl, h => by
    rw [List.getLast?_cons_cons] at hl
    have ih := bin_search_lt_length (c2 :: rest) hl h
    rw [bin_search]
    by_cases hc : c.sgid < s
    · simpa [hc] using Nat.succ_lt_succ ih
    · simp [hc]

theorem sorted_pairwise_head {a : Connection} {rest : List Connection}
    (hs : SortedBySgid (a :: rest)) : ∀ x ∈ rest, a.sgid < x.sgid :=
  (List.pairwise_cons.mp hs).1

theorem sorted_tail {a : Connection} {rest : List Connection}
    (hs : SortedBySgid (a :: rest)) : SortedBySgid rest :=
  (List.pairwise_cons.mp hs).2

theorem sorted_mem_le_getLast {c last : Connection} :
    (l : List Connection) → SortedBySgid l → c ∈ l → l.getLast? = some last →
      c.sgid ≤ last.sgid
  | [], _, hc, _ => absurd hc (List.not_mem_nil c)
  | [a], _, hc, hl => by
    simp only [List.getLast?_singleton, Option.some.injEq] at hl
    simp only [List.mem_singleton] at hc
    subst hc; subst hl; exact Int.le_refl _
  | a :: b :: rest, hs, hc, hl => by
    rw [List.getLast?_cons_cons] at hl
    rcases List.mem_cons.mp hc with hca | hcr
    · subst hca
      have hlast : last ∈ b :: rest := List.mem_of_mem_getLast? hl
      exact Int.le_of_lt (sorted_pairwise_head hs last hlast)
    · exact sorted_mem_le_getLast (b :: rest) (sorted_tail hs) hcr hl

theorem sorted_sgid_unique {c c2 : Connection} :
    (l : List Connection) → SortedBySgid l → c ∈ l → c2 ∈ l → c.sgid = c2.sgid →
      c = c2
  | [], _, hc, _, _ => absurd hc (List.not_mem_nil c)
  | a :: rest, hs, hc, hc2, he => by
    rcases List.mem_cons.mp hc with h1 | h1 <;> rcases List.mem_cons.mp hc2 with h2 | h2
    · rw [h1, h2]
    · subst h1
      exact absurd he (Int.ne_of_lt (sorted_pairwise_head hs c2 h2))
    · subst h2
      exact absurd he.symm (Int.ne_of_lt (sorted_pairwise_head hs c h1))
    · exact sorted_sgid_unique rest (sorted_tail hs) h1 h2 he

theorem get?_bin_search_of_mem {s : Int} {c : Connection} :
    (l : List Connection) → SortedBySgid l → c ∈ l → c.sgid = s →
      l.get? (bin_search l s) = some c
  | [], _, hc, _ => absurd hc (List.not_mem_nil c)
  | a :: rest, hs, hc, he => by
    rw [bin_search]
    by_cases ha : a.sgid < s
    · have hcr : c ∈ rest := by
        rcases List.mem_cons.mp hc with h1 | h1
        · subst h1; exact absurd (he ▸ ha) (Int.lt_irrefl _)
        · exact h1
      simpa [ha] using get?_bin_search_of_mem rest (sorted_tail hs) hcr he
    · have hca : c = a := by
        rcases List.mem_cons.mp hc with h1 | h1
        · exact h1
        · exact absurd (he ▸ sorted_pairwise_head hs c h1) ha
      simp [ha, hca]

theorem mem_insert_bin_search {s : Int} (l : List Connection) (d x : Connection) :
    x ∈ l.insertIdx (bin_search l s) d ↔ x = d ∨ x ∈ l :=
  List.mem_insertIdx (bin_search_le s l)

theorem sorted_insert_bin_search {s : Int} {d : Connection} (hd : d.sgid = s) :
    (l : List Connection) → SortedBySgid l → (∀ c ∈ l, c.sgid ≠ s) →
      SortedBySgid (l.insertIdx (bin_search l s) d)
  | [], _, _ => by simp [bin_search, SortedBySgid]
  | a :: rest, hs, hno => by
    rw [bin_search]
    by_cases ha : a.sgid < s
    · rw [if_pos ha, List.insertIdx_succ_cons]
      refine List.pairwise_cons.mpr ⟨fun x hx => ?_, ?_⟩
      · rcases (mem_insert_bin_search rest d x).mp hx with h1 | h1
        · rw [h1, hd]; exact ha
        · exact sorted_pairwise_head hs x h1
      · exact sorted_insert_bin_search hd rest (sorted_tail hs)
          fun x hx => hno x (List.mem_cons_of_mem a hx)
    · rw [if_neg ha, List.insertIdx_zero]
      refine List.pairwise_cons.mpr ⟨fun x hx => ?_, hs⟩
      have has : s < a.sgid :=
        lt_of_le_of_ne (Int.not_lt.mp ha) fun h => hno a (List.mem_cons_self _ _) h.symm
      rcases List.mem_cons.mp hx with h1 | h1
      · rw [h1, hd]; exact has
      · exact hd ▸ Int.lt_trans has (sorted_pairwise_head hs x h1)

theorem alistGet?_mem {κ α : Type} [DecidableEq κ] {k : κ} {v : α} :
    (m : List (κ × α)) → alistGet? m k = some v → (k, v) ∈ m
  | [], h => by simp [alistGet?] at h
  | (k1, v1) :: rest, h => by
    rw [alistGet?] at h
    by_cases hk : k1 = k
    · subst hk
      rw [if_pos rfl] at h
      cases h
      exact List.mem_cons_self _ _
    · rw [if_neg hk] at h
      exact List.mem_cons_of_mem _ (alistGet?_mem rest h)

theorem alistGet?_eq_none_iff {κ α : Type} [DecidableEq κ] {k : κ} :
    (m : List (κ × α)) → (alistGet? m k = none ↔ k ∉ m.map Prod.fst)
  | [] => by simp [alistGet?]
  | (k1, v1) :: rest => by
    rw [alistGet?]
    by_cases hk : k1 = k
    · subst hk; simp
    · simpa [hk, Ne.symm hk] using alistGet?_eq_none_iff rest

theorem alistGet?_alistSet_self {κ α : Type} [DecidableEq κ] {k : κ} {w : α} (v : α) :
    (m : List (κ × α)) → alistGet? m k = some w →
      alistGet? (alistSet m k v) k = some v
  | [], h => by simp [alistGet?] at h
  | (k1, v1) :: rest, h => by
    rw [alistGet?] at h
    rw [alistSet]
    by_cases hk : k1 = k
    · simp [hk, alistGet?]
    · rw [if_neg hk] at h
      rw [if_neg hk, alistGet?, if_neg hk]
      exact alistGet?_alistSet_self v rest h

theorem alistGet?_alistSet_ne {κ α : Type} [DecidableEq κ] {k k2 : κ} (v : α)
    (hne : k2 ≠ k) :
    (m : List (κ × α)) → alistGet? (alistSet m k v) k2 = alistGet? m k2
  | [] => rfl
  | (k1, v1) :: rest => by
    rw [alistSet]
    by_cases hk : k1 = k
    · subst hk
      have h1 : ¬k1 = k2 := fun h => hne h.symm
      rw [if_pos rfl, alistGet?, alistGet?, if_neg h1, if_neg h1]
    · rw [if_neg hk, alistGet?, alistGet?]
      by_cases hk2 : k1 = k2
      · simp [hk2]
      · simpa [hk2] using alistGet?_alistSet_ne v hne rest

theorem alistSet_keys {κ α : Type} [DecidableEq κ] {k : κ} {v : α} :
    (m : List (κ × α)) → (alistSet m k v).map Prod.fst = m.map Prod.fst
  | [] => rfl
  | (k1, v1) :: rest => by
    rw [alistSet]
    by_cases hk : k1 = k
    · simp [hk]
    · simpa [hk] using alistSet_keys rest

theorem forall_alistSet {κ α : Type} [DecidableEq κ] {k : κ} {v : α} {P : α → Prop} :
    (m : List (κ × α)) → (∀ p ∈ m, P p.2) → P v →
      ∀ p ∈ alistSet m k v, P p.2
  | [], _, _ => by simp [alistSet]
  | (k1, v1) :: rest, hm, hv => by
    rw [alistSet]
    by_cases hk : k1 = k
    · rw [if_pos hk]
      intro p hp
      rcases List.mem_cons.mp hp with h | h
      · rw [h]; exact hv
      · exact hm p (List.mem_cons_of_mem _ h)
    · rw [if_neg hk]
      intro p hp
      rcases List.mem_cons.mp hp with h | h
      · exact hm p (h ▸ List.mem_cons_self _ _)
      · exact forall_alistSet rest (fun q hq => hm q (List.mem_cons_of_mem _ hq)) hv p h

theorem alistGet?_append_ne {κ α : Type} [DecidableEq κ] {k k2 : κ} (v : α)
    (hne : k2 ≠ k) :
    (m : List (κ × α)) → alistGet? (m ++ [(k, v)]) k2 = alistGet? m k2
  | [] => by simp [alistGet?, Ne.symm hne]
  | (k1, v1) :: rest => by
    rw [List.cons_append, alistGet?, alistGet?]
    by_cases hk : k1 = k2
    · simp [hk]
    · simpa [hk] using alistGet?_append_ne v hne rest

theorem alistSet_append_fresh {κ α : Type} [DecidableEq κ] {k : κ} {v w : α} :
    (m : List (κ × α)) → alistGet? m k = none →
      alistSet (m ++ [(k, v)]) k w = m ++ [(k, w)]
  | [], _ => by simp [alistSet]
  | (k1, v1) :: rest, h => by
    rw [alistGet?] at h
    by_cases hk : k1 = k
    · simp [hk] at h
    · rw [if_neg hk] at h
      rw [List.cons_append, alistSet, if_neg hk, List.cons_append,
        alistSet_append_fresh rest h]

/-- Under the invariant, the sequence stored for a target is sorted. -/
theorem ConnectionSet.WF.sorted_of_lookup {cs : ConnectionSet} {t : Int}
    {l : List Connection} (h : cs.WF) (hl : alistGet? cs.connections_map t = some l) :
    SortedBySgid l :=
  h.2 (t, l) (alistGet?_mem _ hl)

theorem findPair_some_elim {cs : ConnectionSet} {s t : Int} {c : Connection}
    (h : cs.findPair s t = some c) :
    ∃ l, alistGet? cs.connections_map t = some l ∧ c ∈ l ∧ c.sgid = s := by
  rw [ConnectionSet.findPair] at h
  cases hl : alistGet? cs.connections_map t with
  | none => rw [hl] at h; simp at h
  | some l =>
    rw [hl, Option.some_bind] at h
    exact ⟨l, rfl, List.mem_of_find?_eq_some h, by simpa using List.find?_some h⟩

theorem findPair_intro {cs : ConnectionSet} {s t : Int} {c : Connection}
    {l : List Connection} (hWF : cs.WF)
    (hl : alistGet? cs.connections_map t = some l) (hc : c ∈ l) (he : c.sgid = s) :
    cs.findPair s t = some c := by
  rw [ConnectionSet.findPair, hl, Option.some_bind]
  cases hf : l.find? (fun x => x.sgid == s) with
  | none =>
    exact absurd (by simpa using he) (List.find?_eq_none.mp hf c hc)
  | some c2 =>
    have hc2 : c2 ∈ l := List.mem_of_find?_eq_some hf
    have he2 : c2.sgid = s := by simpa using List.find?_some hf
    rw [sorted_sgid_unique l (hWF.sorted_of_lookup hl) hc2 hc (he2.trans he.symm)]

theorem findPair_none_elim {cs : ConnectionSet} {s t : Int}
    (h : cs.findPair s t = none) :
    ∀ l, alistGet? cs.connections_map t = some l → ∀ c ∈ l, c.sgid ≠ s := by
  intro l hl c hc he
  rw [ConnectionSet.findPair, hl, Option.some_bind, List.find?_eq_none] at h
  exact h c hc (by simpa using he)

theorem gocList_sgid (l : List Connection) (s tg src dst : Int) :
    (ConnectionSet.gocList l s tg src dst).1.1.sgid = s := by
  cases hl : l.getLast? with
  | none => simp [ConnectionSet.gocList, hl, mkConnection]
  | some last =>
    by_cases h1 : last.sgid = s
    · simp [ConnectionSet.gocList, hl, if_pos h1, h1]
    · by_cases h2 : last.sgid < s
      · simp [ConnectionSet.gocList, hl, if_neg h1, if_pos h2, mkConnection]
      · cases hg : l.get? (bin_search l s) with
        | none =>
          rw [List.get?_eq_getElem?] at hg
          simp [ConnectionSet.gocList, hl, if_neg h1, if_neg h2, hg, mkConnection]
        | some cAt =>
          rw [List.get?_eq_getElem?] at hg
          by_cases h3 : cAt.sgid = s
          · simp [ConnectionSet.gocList, hl, if_neg h1, if_neg h2, hg, if_pos h3, h3]
          · simp [ConnectionSet.gocList, hl, if_neg h1, if_neg h2, hg, if_neg h3,
              mkConnection]

/-- When an entry with the searched source id exists in a sorted
sequence, the branch logic returns it, at a valid index, without
modifying the sequence. -/
theorem gocList_found {l : List Connection} {s : Int} (tg src dst : Int)
    {c : Connection} (hs : SortedBySgid l) (hc : c ∈ l) (he : c.sgid = s) :
    ∃ i, ConnectionSet.gocList l s tg src dst = ((c, i), (l, false)) ∧
      l.get? i = some c := by
  cases hl : l.getLast? with
  | none =>
    rw [List.getLast?_eq_none_iff.mp hl] at hc
    exact absurd hc (List.not_mem_nil c)
  | some last =>
    have hlast_mem : last ∈ l := List.mem_of_mem_getLast? hl
    by_cases h1 : last.sgid = s
    · have hcl : c = last :=
        sorted_sgid_unique l hs hc hlast_mem (he.trans h1.symm)
      subst hcl
      refine ⟨l.length - 1, ?_, ?_⟩
      · simp [ConnectionSet.gocList, hl, if_pos h1]
      · rw [List.get?_eq_getElem?, ← List.getLast?_eq_getElem?, hl]
    · have h2 : ¬last.sgid < s := fun hlt =>
        absurd (he ▸ sorted_mem_le_getLast l hs hc hl) (Int.not_le.mpr hlt)
      have hg : l.get? (bin_search l s) = some c := get?_bin_search_of_mem l hs hc he
      refine ⟨bin_search l s, ?_, hg⟩
      have hg2 : l[bin_search l s]? = some c := (List.get?_eq_getElem? l _) ▸ hg
      simp [ConnectionSet.gocList, hl, if_neg h1, if_neg h2, hg2, if_pos he]

/-- When no entry with the searched source id exists in a sorted
sequence, the branch logic creates a fresh connection and inserts it at
the lower-bound position. -/
theorem gocList_absent {l : List Connection} {s : Int} (tg src dst : Int)
    (hs : SortedBySgid l) (hno : ∀ c ∈ l, c.sgid ≠ s) :
    ConnectionSet.gocList l s tg src dst =
      ((mkConnection s tg src dst, bin_search l s),
       (l.insertIdx (bin_search l s) (mkConnection s tg src dst), true)) := by
  cases hl : l.getLast? with
  | none =>
    rw [List.getLast?_eq_none_iff.mp hl]
    rfl
  | some last =>
    have hlast_mem : last ∈ l := List.mem_of_mem_getLast? hl
    have h1 : ¬last.sgid = s := hno last hlast_mem
    by_cases h2 : last.sgid < s
    · have hall : ∀ c ∈ l, c.sgid < s := fun c hc =>
        Int.lt_of_le_of_lt (sorted_mem_le_getLast l hs hc hl) h2
      simp [ConnectionSet.gocList, hl, if_neg h1, if_pos h2,
        bin_search_eq_length hall, List.insertIdx_length_self]
    · have hpos : bin_search l s < l.length := bin_search_lt_length l hl h2
      have hg : l[bin_search l s]? = some l[bin_search l s] :=
        List.getElem?_eq_getElem hpos
      have hAt : ¬(l[bin_search l s]).sgid = s := hno _ (List.getElem_mem hpos)
      simp [ConnectionSet.gocList, hl, if_neg h1, if_neg h2, hg, if_neg hAt]

/-- A `get_or_create_connection` call that finds an existing entry
returns it, at a valid index, and leaves the set untouched. -/
theorem get_or_create_core_found {cs : ConnectionSet} {s t : Int} {c : Connection}
    (hWF : cs.WF) (hfp : cs.findPair s t = some c) :
    ∃ i, cs.get_or_create_core s t = ((c, i), cs) ∧
      ∃ l, alistGet? cs.connections_map t = some l ∧ l.get? i = some c := by
  obtain ⟨l, hl, hc, he⟩ := findPair_some_elim hfp
  obtain ⟨i, hg, hgi⟩ :=
    gocList_found t cs.src_id cs.dst_id (hWF.sorted_of_lookup hl) hc he
  refine ⟨i, ?_, l, hl, hgi⟩
  simp [ConnectionSet.get_or_create_core, alistGetD, hl, hg]

/-- A `get_or_create_connection` call with no matching entry under an
already materialized target key creates a fresh connection and inserts
it at the lower-bound position. -/
theorem get_or_create_core_create_present {cs : ConnectionSet} {s t : Int}
    {l : List Connection} (hWF : cs.WF)
    (hl : alistGet? cs.connections_map t = some l) (hno : ∀ c ∈ l, c.sgid ≠ s) :
    cs.get_or_create_core s t =
      ((mkConnection s t cs.src_id cs.dst_id, bin_search l s),
       { cs with
         connections_map := alistSet cs.connections_map t
           (l.insertIdx (bin_search l s) (mkConnection s t cs.src_id cs.dst_id)),
         conn_count := cs.conn_count + 1 }) := by
  have hg := gocList_absent t cs.src_id cs.dst_id (hWF.sorted_of_lookup hl) hno
  simp [ConnectionSet.get_or_create_core, alistGetD, hl, hg]

/-- A `get_or_create_connection` call on a never-seen target key
materializes the key and stores the single fresh connection. -/
theorem get_or_create_core_create_fresh {cs : ConnectionSet} {s t : Int}
    (hl : alistGet? cs.connections_map t = none) :
    cs.get_or_create_core s t =
      ((mkConnection s t cs.src_id cs.dst_id, 0),
       { cs with
         connections_map :=
           cs.connections_map ++ [(t, [mkConnection s t cs.src_id cs.dst_id])],
         conn_count := cs.conn_count + 1 }) := by
  simp [ConnectionSet.get_or_create_core, alistGetD, hl, ConnectionSet.gocList,
    alistSet_append_fresh cs.connections_map hl]

/-- `get_or_create_connection` preserves the set invariant. -/
theorem get_or_create_core_WF {cs : ConnectionSet} {s t : Int} (hWF : cs.WF) :
    (cs.get_or_create_core s t).2.WF := by
  cases hfp : cs.findPair s t with
  | some c =>
    obtain ⟨i, heq, -⟩ := get_or_create_core_found hWF hfp
    rw [heq]
    exact hWF
  | none =>
    cases hl : alistGet? cs.connections_map t with
    | some l =>
      have hno := findPair_none_elim hfp l hl
      rw [get_or_create_core_create_present hWF hl hno]
      refine ⟨?_, ?_⟩
      · show ((alistSet _ _ _).map Prod.fst).Nodup
        rw [alistSet_keys]
        exact hWF.1
      · exact forall_alistSet _ hWF.2
          (sorted_insert_bin_search rfl l (hWF.sorted_of_lookup hl) hno)
    | none =>
      rw [get_or_create_core_create_fresh hl]
      refine ⟨?_, ?_⟩
      · have ht : t ∉ cs.connections_map.map Prod.fst :=
          (alistGet?_eq_none_iff _).mp hl
        simp [List.nodup_append, hWF.1, ht]
      · intro p hp
        rcases List.mem_append.mp hp with h | h
        · exact hWF.2 p h
        · simp only [List.mem_singleton] at h
          rw [h]
          exact List.pairwise_singleton _ _

/-- After `get_or_create_connection`, the returned connection is the one
stored for the pair. -/
theorem get_or_create_core_findPair_self {cs : ConnectionSet} {s t : Int}
    (hWF : cs.WF) :
    (cs.get_or_create_core s t).2.findPair s t =
      some (cs.get_or_create_core s t).1.1 := by
  cases hfp : cs.findPair s t with
  | some c =>
    obtain ⟨i, heq, -⟩ := get_or_create_core_found hWF hfp
    rw [heq]
    exact hfp
  | none =>
    have hWF2 := get_or_create_core_WF (s := s) (t := t) hWF
    cases hl : alistGet? cs.connections_map t with
    | some l =>
      have hno := findPair_none_elim hfp l hl
      rw [get_or_create_core_create_present hWF hl hno] at hWF2 ⊢
      exact findPair_intro hWF2 (alistGet?_alistSet_self _ _ hl)
        ((mem_insert_bin_search _ _ _).mpr (Or.inl rfl)) rfl
    | none =>
      rw [get_or_create_core_create_fresh hl] at hWF2 ⊢
      exact findPair_intro hWF2 (alistGet?_append_self _ _ _ hl)
        (List.mem_singleton.mpr rfl) rfl

/-- `get_or_create_connection` leaves the sequences of other targets
untouched. -/
theorem get_or_create_core_lookup_ne {cs : ConnectionSet} {s t t2 : Int}
    (hne : t2 ≠ t) :
    alistGet? (cs.get_or_create_core s t).2.connections_map t2 =
      alistGet? cs.connections_map t2 := by
  cases hl : alistGet? cs.connections_map t with
  | some l =>
    simp only [ConnectionSet.get_or_create_core, alistGetD, hl]
    split
    · exact alistGet?_alistSet_ne _ hne _
    · rfl
  | none =>
    simp only [ConnectionSet.get_or_create_core, alistGetD, hl]
    split
    · rw [alistGet?_alistSet_ne _ hne, alistGet?_append_ne _ hne]
    · exact alistGet?_append_ne _ hne _

/-- `get_or_create_connection` does not change the connection stored for
any other `(source, target)` pair. -/
theorem get_or_create_core_findPair_frame {cs : ConnectionSet} {s t s2 t2 : Int}
    (hWF : cs.WF) (hne : ¬(s2 = s ∧ t2 = t)) :
    (cs.get_or_create_core s t).2.findPair s2 t2 = cs.findPair s2 t2 := by
  by_cases ht : t2 = t
  · subst t2
    have hs2 : s2 ≠ s := fun h => hne ⟨h, rfl⟩
    cases hfp : cs.findPair s t with
    | some c =>
      obtain ⟨i, heq, -⟩ := get_or_create_core_found hWF hfp
      rw [heq]
    | none =>
      have hWF2 := get_or_create_core_WF (s := s) (t := t) hWF
      cases hl : alistGet? cs.connections_map t with
      | some l =>
        have hno := findPair_none_elim hfp l hl
        have hkey : alistGet? (cs.get_or_create_core s t).2.connections_map t =
            some (l.insertIdx (bin_search l s) (mkConnection s t cs.src_id cs.dst_id)) := by
          rw [get_or_create_core_create_present hWF hl hno]
          exact alistGet?_alistSet_self _ _ hl
        cases h2 : cs.findPair s2 t with
        | some c2 =>
          obtain ⟨l0, hl0, hc2, he2⟩ := findPair_some_elim h2
          rw [hl] at hl0
          cases hl0
          exact findPair_intro hWF2 hkey
            ((mem_insert_bin_search _ _ _).mpr (Or.inr hc2)) he2
        | none =>
          cases h3 : (cs.get_or_create_core s t).2.findPair s2 t with
          | none => rfl
          | some c3 =>
            obtain ⟨l3, hl3, hc3, he3⟩ := findPair_some_elim h3
            rw [hkey] at hl3
            cases hl3
            rcases (mem_insert_bin_search _ _ _).mp hc3 with hc3d | hc3l
            · rw [hc3d] at he3
              exact absurd he3 (Ne.symm hs2)
            · exact absurd he3 (findPair_none_elim h2 l hl c3 hc3l)
      | none =>
        have hkey : alistGet? (cs.get_or_create_core s t).2.connections_map t =
            some [mkConnection s t cs.src_id cs.dst_id] := by
          rw [get_or_create_core_create_fresh hl]
          exact alistGet?_append_self _ _ _ hl
        rw [ConnectionSet.findPair, ConnectionSet.findPair, hl, hkey]
        have hbe : (s == s2) = false := by simp [Ne.symm hs2]
        simp [List.find?, mkConnection, hbe]
  · rw [ConnectionSet.findPair, ConnectionSet.findPair,
      get_or_create_core_lookup_ne ht]

theorem set_get?_same {α : Type} :
    ∀ (l : List α) (i : Nat) (v : α), l.get? i = some v → l.set i v = l
  | [], i, _, h => by cases i <;> simp at h
  | a :: rest, 0, v, h => by
    simp only [List.get?_cons_zero, Option.some.injEq] at h
    rw [List.set_cons_zero, h]
  | a :: rest, i + 1, v, h => by
    simp only [List.get?_cons_succ] at h
    rw [List.set_cons_succ, set_get?_same rest i v h]

theorem insert_get?_self {α : Type} (l : List α) (n : Nat) (a : α)
    (h : n ≤ l.length) : (l.insertIdx n a).get? n = some a := by
  have hlen : n < (l.insertIdx n a).length := by
    rw [List.length_insertIdx _ _ h]
    omega
  rw [List.get?_eq_getElem?, List.getElem?_eq_getElem hlen,
    List.getElem_insertIdx_self l a n h]

theorem get?_set_ne {α : Type} (l : List α) (i j : Nat) (a : α) (h : j ≠ i) :
    (l.set i a).get? j = l.get? j := by
  rw [List.get?_eq_getElem?, List.get?_eq_getElem?,
    List.getElem?_set_ne fun hh => h hh.symm]

theorem get?_set_self {α : Type} (l : List α) (i : Nat) (a : α) (h : i < l.length) :
    (l.set i a).get? i = some a := by
  rw [List.get?_eq_getElem?, List.getElem?_set_self]
  simp [h]

/-- The target sequence after the write-back of an in-place connection
mutation. -/
theorem setConnAt_lookup_self {cs : ConnectionSet} {t : Int} {l : List Connection}
    (i : Nat) (c : Connection) (hl : alistGet? cs.connections_map t = some l) :
    alistGet? (cs.setConnAt t i c).connections_map t = some (l.set i c) := by
  simp only [ConnectionSet.setConnAt, hl]
  exact alistGet?_alistSet_self _ _ hl

theorem setConnAt_lookup_ne {cs : ConnectionSet} {t t2 : Int} (i : Nat)
    (c : Connection) (hne : t2 ≠ t) :
    alistGet? (cs.setConnAt t i c).connections_map t2 =
      alistGet? cs.connections_map t2 := by
  simp only [ConnectionSet.setConnAt]
  cases hl : alistGet? cs.connections_map t with
  | none => rfl
  | some l => exact alistGet?_alistSet_ne _ hne _

/-- Writing back a mutation that keeps the source id preserves the set
invariant. -/
theorem setConnAt_WF {cs : ConnectionSet} {t : Int} {l : List Connection}
    {i : Nat} {c c0 : Connection} (hWF : cs.WF)
    (hl : alistGet? cs.connections_map t = some l) (hg : l.get? i = some c0)
    (he : c.sgid = c0.sgid) : (cs.setConnAt t i c).WF := by
  have hsorted : SortedBySgid (l.set i c) := by
    have hmap : (l.set i c).map Connection.sgid = l.map Connection.sgid := by
      rw [List.map_set]
      apply set_get?_same
      rw [List.get?_eq_getElem?, List.getElem?_map, ← List.get?_eq_getElem?, hg,
        Option.map_some', he]
    have hs := hWF.sorted_of_lookup hl
    have h1 : (l.map Connection.sgid).Pairwise (fun a b => a < b) :=
      (List.pairwise_map).mpr hs
    rw [← hmap] at h1
    exact (List.pairwise_map).mp h1
  simp only [ConnectionSet.setConnAt, hl]
  refine ⟨?_, ?_⟩
  · show ((alistSet _ _ _).map Prod.fst).Nodup
    rw [alistSet_keys]
    exact hWF.1
  · exact forall_alistSet _ hWF.2 hsorted

theorem setConnAt_count {cs : ConnectionSet} (t : Int) (i : Nat) (c : Connection) :
    (cs.setConnAt t i c).conn_count = cs.conn_count := by
  simp only [ConnectionSet.setConnAt]
  cases alistGet? cs.connections_map t <;> rfl

/-- After the write-back the mutated connection is the one stored for its
pair. -/
theorem setConnAt_findPair_self {cs : ConnectionSet} {t : Int} {l : List Connection}
    {i : Nat} {c c0 : Connection} (hWF : cs.WF)
    (hl : alistGet? cs.connections_map t = some l) (hg : l.get? i = some c0)
    (he : c.sgid = c0.sgid) :
    (cs.setConnAt t i c).findPair c.sgid t = some c := by
  have hi : i < l.length := by
    rcases Nat.lt_or_ge i l.length with h | h
    · exact h
    · rw [List.get?_eq_getElem?, List.getElem?_eq_none h] at hg
      cases hg
  refine findPair_intro (setConnAt_WF hWF hl hg he) (setConnAt_lookup_self i c hl)
    ?_ rfl
  exact List.get?_mem (get?_set_self l i c hi)

/-- The write-back leaves every other pair's stored connection unchanged. -/
theorem setConnAt_findPair_frame {cs : ConnectionSet} {t : Int} {l : List Connection}
    {i : Nat} {c c0 : Connection} {s2 t2 : Int} (hWF : cs.WF)
    (hl : alistGet? cs.connections_map t = some l) (hg : l.get? i = some c0)
    (he : c.sgid = c0.sgid) (hne : ¬(s2 = c.sgid ∧ t2 = t)) :
    (cs.setConnAt t i c).findPair s2 t2 = cs.findPair s2 t2 := by
  by_cases ht : t2 = t
  · subst t2
    have hs2 : s2 ≠ c.sgid := fun h => hne ⟨h, rfl⟩
    have hWF2 := setConnAt_WF hWF hl hg he
    have hkey := setConnAt_lookup_self i c hl
    cases h2 : cs.findPair s2 t with
    | some c2 =>
      obtain ⟨l0, hl0, hc2, he2⟩ := findPair_some_elim h2
      rw [hl] at hl0
      cases hl0
      obtain ⟨j, hj⟩ := List.mem_iff_get?.mp hc2
      have hji : j ≠ i := by
        intro hh
        rw [hh, hg] at hj
        cases hj
        exact hs2 (he2 ▸ he.symm ▸ rfl)
      have hj2 : (l.set i c).get? j = some c2 := by rw [get?_set_ne l i j c hji, hj]
      exact findPair_intro hWF2 hkey (List.get?_mem hj2) he2
    | none =>
      cases h3 : (cs.setConnAt t i c).findPair s2 t with
      | none => rfl
      | some c3 =>
        obtain ⟨l3, hl3, hc3, he3⟩ := findPair_some_elim h3
        rw [hkey] at hl3
        cases hl3
        rcases List.mem_or_eq_of_mem_set hc3 with hc3l | hc3c
        · exact absurd he3 (findPair_none_elim h2 l hl c3 hc3l)
        · rw [hc3c] at he3
          exact absurd he3 (Ne.symm hs2)
  · rw [ConnectionSet.findPair, ConnectionSet.findPair, setConnAt_lookup_ne i c ht]

/-- The source id of the connection returned by
`get_or_create_connection` is the searched one. -/
theorem get_or_create_core_sgid (cs : ConnectionSet) (s t : Int) :
    (cs.get_or_create_core s t).1.1.sgid = s := by
  simp only [ConnectionSet.get_or_create_core]
  split
  · exact gocList_sgid _ s t _ _
  · exact gocList_sgid _ s t _ _

/-- The index returned by `get_or_create_connection` addresses the
returned connection inside the target's sequence of the resulting set. -/
theorem get_or_create_core_index {cs : ConnectionSet} {s t : Int} (hWF : cs.WF) :
    ∃ l2, alistGet? (cs.get_or_create_core s t).2.connections_map t = some l2 ∧
      l2.get? (cs.get_or_create_core s t).1.2 =
        some (cs.get_or_create_core s t).1.1 := by
  cases hfp : cs.findPair s t with
  | some c =>
    obtain ⟨i, heq, l, hl, hgi⟩ := get_or_create_core_found hWF hfp
    rw [heq]
    exact ⟨l, hl, hgi⟩
  | none =>
    cases hl : alistGet? cs.connections_map t with
    | some l =>
      have hno := findPair_none_elim hfp l hl
      rw [get_or_create_core_create_present hWF hl hno]
      exact ⟨_, alistGet?_alistSet_self _ _ hl,
        insert_get?_self l (bin_search l s) _ (bin_search_le s l)⟩
    | none =>
      rw [get_or_create_core_create_fresh hl]
      exact ⟨_, alistGet?_append_self _ _ _ hl, rfl⟩

theorem alistSet_same {κ α : Type} [DecidableEq κ] {k : κ} {v : α} :
    (m : List (κ × α)) → alistGet? m k = some v → alistSet m k v = m
  | [], h => by simp [alistGet?] at h
  | (k1, v1) :: rest, h => by
    rw [alistGet?] at h
    rw [alistSet]
    by_cases hk : k1 = k
    · rw [if_pos hk] at h ⊢
      cases h
      rfl
    · rw [if_neg hk] at h ⊢
      rw [alistSet_same rest h]

theorem alistSet_alistSet {κ α : Type} [DecidableEq κ] {k : κ} (v w : α) :
    (m : List (κ × α)) → alistSet (alistSet m k v) k w = alistSet m k w
  | [] => rfl
  | (k1, v1) :: rest => by
    by_cases hk : k1 = k
    · simp [alistSet, hk]
    · simp [alistSet, hk, alistSet_alistSet v w rest]

theorem mem_alistGet? {κ α : Type} [DecidableEq κ] {k : κ} {v : α} :
    (m : List (κ × α)) → (m.map Prod.fst).Nodup → (k, v) ∈ m →
      alistGet? m k = some v
  | [], _, hm => absurd hm (List.not_mem_nil _)
  | (k1, v1) :: rest, hnd, hm => by
    rw [alistGet?]
    rcases List.mem_cons.mp hm with h | h
    · cases h
      rw [if_pos rfl]
    · have hk : k1 ≠ k := by
        intro hh
        subst hh
        have : k1 ∈ rest.map Prod.fst :=
          List.mem_map.mpr ⟨(k1, v), h, rfl⟩
        exact (List.nodup_cons.mp hnd).1 this
      rw [if_neg hk]
      exact mem_alistGet? rest (List.nodup_cons.mp hnd).2 h

/-- `setConnAt` touches only the connections map. -/
theorem setConnAt_fields (cs : ConnectionSet) (t : Int) (i : Nat) (c : Connection) :
    (cs.setConnAt t i c).src_id = cs.src_id ∧
    (cs.setConnAt t i c).dst_id = cs.dst_id ∧
    (cs.setConnAt t i c).conn_count = cs.conn_count := by
  simp only [ConnectionSet.setConnAt]
  cases alistGet? cs.connections_map t <;> exact ⟨rfl, rfl, rfl⟩

/-- `get_connection` on a pair stored in a sorted sequence finds it, at a
valid index, and (the target key being present) leaves the set unchanged. -/
theorem get_connection_core_some {cs : ConnectionSet} {s t : Int} {c : Connection}
    (hWF : cs.WF) (hfp : cs.findPair s t = some c) :
    ∃ i l, cs.get_connection_core s t = (some (c, i), cs) ∧
      alistGet? cs.connections_map t = some l ∧ l.get? i = some c ∧ i < l.length := by
  obtain ⟨l, hl, hc, he⟩ := findPair_some_elim hfp
  have hs := hWF.sorted_of_lookup hl
  have hg : l.get? (bin_search l s) = some c := get?_bin_search_of_mem l hs hc he
  have hlt : bin_search l s < l.length := by
    rcases Nat.lt_or_ge (bin_search l s) l.length with h | h
    · exact h
    · rw [List.get?_eq_getElem?, List.getElem?_eq_none h] at hg
      cases hg
  have hemp : l.isEmpty = false := by
    cases l
    · exact absurd hc (List.not_mem_nil c)
    · rfl
  have hg2 : l[bin_search l s]? = some c := by
    rw [← List.get?_eq_getElem?]
    exact hg
  refine ⟨bin_search l s, l, ?_, hl, hg, hlt⟩
  simp [ConnectionSet.get_connection_core, ConnectionSet._find_connection, alistGetD,
    hl, hemp, hg2, Nat.ne_of_lt hlt, he]

/-- `get_connection` on an absent pair yields `None` (the Python value
that `disable` then dereferences). -/
theorem get_connection_core_none {cs : ConnectionSet} {s t : Int} (hWF : cs.WF)
    (hfp : cs.findPair s t = none) : (cs.get_connection_core s t).1 = none := by
  cases hl : alistGet? cs.connections_map t with
  | none =>
    simp [ConnectionSet.get_connection_core, ConnectionSet._find_connection,
      alistGetD, hl]
  | some l =>
    have hno := findPair_none_elim hfp l hl
    cases l with
    | nil =>
      simp [ConnectionSet.get_connection_core, ConnectionSet._find_connection,
        alistGetD, hl]
    | cons a rest =>
      rcases Nat.lt_or_ge (bin_search (a :: rest) s) (a :: rest).length with hlt | hge
      · have hg : (a :: rest)[bin_search (a :: rest) s]? =
            some ((a :: rest)[bin_search (a :: rest) s]) :=
          List.getElem?_eq_getElem hlt
        have hx : ((a :: rest)[bin_search (a :: rest) s]).sgid ≠ s :=
          hno _ (List.getElem_mem hlt)
        simp [ConnectionSet.get_connection_core, ConnectionSet._find_connection,
          alistGetD, hl, hg, hx, Nat.ne_of_lt hlt]
      · have heq : bin_search (a :: rest) s = (a :: rest).length :=
          Nat.le_antisymm (bin_search_le s _) hge
        simp [ConnectionSet.get_connection_core, ConnectionSet._find_connection,
          alistGetD, hl, heq]

/-- With a `None` population selector every population is matched. -/
theorem find_populations_all (m : Manager) :
    m.find_populations .all = m.populations := by
  rw [Manager.find_populations]
  exact List.filter_eq_self.mpr fun kp _ => by
    simp [ConnectionSet.ids_match]

/-- The registry entry after a disabled-registry append. -/
theorem registryAppend_lookup (reg : List (Int × List Connection)) (t : Int)
    (c : Connection) :
    alistGet? (Manager.registryAppend reg t c) t =
      some ((alistGet? reg t).getD [] ++ [c]) := by
  rw [Manager.registryAppend]
  cases hl : alistGet? reg t with
  | some dl =>
    simp only [alistGetD, hl]
    exact alistGet?_alistSet_self _ _ hl
  | none =>
    simp only [alistGetD, hl]
    rw [alistSet_append_fresh _ hl]
    simpa using alistGet?_append_self _ _ _ hl

theorem enumFrom_filter_last (p : Nat × Connection → Bool) (a : Connection) :
    ∀ (l : List Connection) (n : Nat), (∀ j x, x ∈ l → p (j, x) = false) →
      (∀ j, p (j, a) = true) →
      (List.enumFrom n (l ++ [a])).filter p = [(n + l.length, a)]
  | [], n, _, hpa => by simp [List.enumFrom, List.filter, hpa n]
  | x :: rest, n, hpl, hpa => by
    rw [List.cons_append, List.enumFrom_cons, List.filter_cons,
      hpl n x (List.mem_cons_self _ _),
      enumFrom_filter_last p a rest (n + 1)
        (fun j y hy => hpl j y (List.mem_cons_of_mem _ hy)) hpa]
    simp only [Bool.false_eq_true, if_false, List.length_cons]
    rw [Nat.add_comm rest.length 1, ← Nat.add_assoc]

/-- The registry scan of `reenable` matches exactly the entry appended by
`disable` when no earlier entry matches. -/
theorem enum_filter_last (p : Nat × Connection → Bool) (l : List Connection)
    (a : Connection) (hpl : ∀ j x, x ∈ l → p (j, x) = false)
    (hpa : ∀ j, p (j, a) = true) :
    (l ++ [a]).enum.filter p = [(l.length, a)] := by
  have h := enumFrom_filter_last p a l 0 hpl hpa
  rw [Nat.zero_add] at h
  exact h

theorem enumFrom_np_delete_last (a : Connection) :
    ∀ (l : List Connection) (n m : Nat), m = n + l.length →
      ((List.enumFrom n (l ++ [a])).filterMap fun ic =>
        if ic.1 ∈ [m] then none else some ic.2) = l
  | [], n, m, hm => by
    subst hm
    simp [List.enumFrom, List.filterMap]
  | x :: rest, n, m, hm => by
    rw [List.cons_append, List.enumFrom_cons, List.filterMap_cons]
    have hne : ¬n ∈ [m] := by
      subst hm
      simp only [List.mem_singleton, List.length_cons]
      omega
    rw [if_neg hne, enumFrom_np_delete_last a rest (n + 1) m
      (by subst hm; simp only [List.length_cons]; omega)]

/-- `numpy.delete` at exactly the index of the last element removes it. -/
theorem np_delete_last (l : List Connection) (a : Connection) :
    np_delete (l ++ [a]) [l.length] = l := by
  rw [np_delete]
  exact enumFrom_np_delete_last a l 0 l.length (Nat.zero_add _).symm

/-- Re-enabling through the aliased reference restores the target
sequence exactly: the disabled copy of the connection at its index is
enabled in place and no other element matches the source id. -/
theorem enable_map_restore {l : List Connection} {c : Connection} {i : Nat}
    {s : Int} (hs : SortedBySgid l) (hg : l.get? i = some c) (he : c.sgid = s)
    (hd : c.disabled = false) :
    (l.set i (c.disableConn false)).map
      (fun x => if x.sgid == s then x.enableConn else x) = l := by
  have hi : i < l.length := by
    rcases Nat.lt_or_ge i l.length with h | h
    · exact h
    · rw [List.get?_eq_getElem?, List.getElem?_eq_none h] at hg
      cases hg
  have hnd : l.Nodup := List.Pairwise.imp
    (fun hlt heq => absurd (heq ▸ hlt) (Int.lt_irrefl _)) hs
  have hcc : (c.disableConn false).enableConn = c := by
    cases c
    simp only [Connection.disableConn, Connection.enableConn]
    rw [← hd]
  apply List.ext_get?
  intro n
  rw [List.get?_eq_getElem?, List.getElem?_map, ← List.get?_eq_getElem?]
  by_cases hn : n = i
  · subst hn
    rw [get?_set_self _ _ _ hi, hg]
    have hds : (c.disableConn false).sgid = s := he
    simp [hds, hcc]
  · rw [get?_set_ne _ _ _ _ hn]
    cases hgn : l.get? n with
    | none => rfl
    | some x =>
      have hxprop : x.sgid ≠ s := by
        intro hxs
        have hx : x = c :=
          sorted_sgid_unique l hs (List.get?_mem hgn) (List.get?_mem hg)
            (hxs.trans he.symm)
        rw [hx] at hgn
        exact hn (List.get?_inj hi hnd (hg.trans hgn.symm)).symm
      simp [hxprop]

/-- Every population matched by a selector is retrievable from the
registry under its key. -/
theorem find_populations_lookup {m : Manager} {sel : Manager.PopSel}
    {kp : (Int × Int) × ConnectionSet}
    (hkeys : (m.populations.map Prod.fst).Nodup)
    (h : kp ∈ m.find_populations sel) :
    alistGet? m.populations kp.1 = some kp.2 := by
  have hfilter : ∀ (p : (Int × Int) × ConnectionSet → Bool),
      kp ∈ m.populations.filter p → alistGet? m.populations kp.1 = some kp.2 :=
    fun p hp => mem_alistGet? _ hkeys (List.mem_of_mem_filter hp)
  cases sel with
  | all => exact hfilter _ h
  | srcOnly i => exact hfilter _ h
  | pair a b =>
    cases a with
    | none => exact hfilter _ h
    | some x =>
      cases b with
      | none => exact hfilter _ h
      | some d =>
        rw [Manager.find_populations] at h
        cases hl : alistGet? m.populations (x, d) with
        | none =>
          rw [hl] at h
          exact absurd h (List.not_mem_nil _)
        | some p =>
          rw [hl] at h
          rw [List.mem_singleton] at h
          rw [h]
          exact hl

/-- The counting fold of `_finalize_conns`, in closed form. -/
theorem finalize_fold_closed (f : Connection → Bool) (l : List Connection)
    (n : Nat) (acc : List Connection) :
    l.foldl (fun a c => (if f c then a.1 + 1 else a.1, a.2 ++ [c])) (n, acc) =
      (n + l.countP f, acc ++ l) := by
  induction l generalizing n acc with
  | nil => simp
  | cons c rest ih =>
    rw [List.foldl_cons, ih]
    by_cases hf : f c <;>
      simp [List.countP_cons, hf, Nat.add_comm, Nat.add_assoc, Nat.add_left_comm]

theorem _finalize_conns_eq (f : Connection → Bool) (conns : List Connection) :
    _finalize_conns f conns = (conns.countP f, conns.reverse) := by
  rw [_finalize_conns, finalize_fold_closed]
  simp [List.countP_reverse]

/-- The per-population fold of `finalizeLocal`, in closed form. -/
theorem finalizeLocal_pop_fold (f : Int → Connection → Bool)
    (l : List (Int × List Connection)) (n : Nat) :
    l.foldl (fun n2 tc => n2 + (_finalize_conns (f tc.1) tc.2).1) n =
      n + (l.map fun tc => tc.2.countP (f tc.1)).sum := by
  induction l generalizing n with
  | nil => simp
  | cons tc rest ih =>
    rw [List.foldl_cons, ih, _finalize_conns_eq]
    simp only [List.map_cons, List.sum_cons]
    omega

theorem finalizeLocal_closed (m : Manager) (f : Int → Connection → Bool) :
    finalizeLocal m f =
      (m.populations.map fun kp =>
        (kp.2.connections_map.map fun tc => tc.2.countP (f tc.1)).sum).sum := by
  rw [finalizeLocal]
  generalize m.populations = pops
  induction pops using List.reverseRecOn with
  | nil => simp
  | append_singleton rest kp ih =>
    rw [List.foldl_append, List.foldl_cons, List.foldl_nil, ih, finalizeLocal_pop_fold]
    simp

/-- The empty `ConnectionSet` satisfies the invariant. -/
theorem init_WF (src_id dst_id : Int) : (ConnectionSet.init src_id dst_id).WF :=
  ⟨List.nodup_nil, by simp [ConnectionSet.init]⟩

/-- Any sequence of `get_or_create_connection` calls preserves the
invariant. -/
theorem applyGetOrCreate_WF :
    ∀ (ops : List (Int × Int)) {cs : ConnectionSet}, cs.WF →
      (applyGetOrCreate cs ops).WF
  | [], _, h => h
  | _ :: rest, _, h => applyGetOrCreate_WF rest (get_or_create_core_WF h)

/-- One `connect_group` loop iteration preserves the set invariant. -/
theorem processGroup_WF {restrict : Option Int} {pop : ConnectionSet}
    {g : Int × Int × List SynParams × Nat} (hWF : pop.WF) :
    (Manager.processGroup restrict pop g).WF := by
  simp only [Manager.processGroup]
  by_cases hlk : (pop.get_or_create_core g.1 g.2.1).1.1.locked
  · simp only [if_pos hlk]
    exact get_or_create_core_WF hWF
  · simp only [if_neg hlk]
    obtain ⟨l2, hl2, hg2⟩ := get_or_create_core_index (s := g.1) (t := g.2.1) hWF
    exact setConnAt_WF (get_or_create_core_WF hWF) hl2 hg2 rfl

/-- One `connect_group` loop iteration never touches a connection that is
already locked: its stored value (synapses included) is preserved. -/
theorem processGroup_findPair_preserved {restrict : Option Int}
    {pop : ConnectionSet} {g : Int × Int × List SynParams × Nat} {s t : Int}
    {c : Connection} (hWF : pop.WF) (hfp : pop.findPair s t = some c)
    (hlk : c.locked = true) :
    (Manager.processGroup restrict pop g).findPair s t = some c := by
  simp only [Manager.processGroup]
  by_cases hpair : s = g.1 ∧ t = g.2.1
  · obtain ⟨hs, ht⟩ := hpair
    subst hs
    subst ht
    obtain ⟨i, heq, -⟩ := get_or_create_core_found hWF hfp
    rw [heq]
    simp only [if_pos hlk]
    exact hfp
  · have hframe := get_or_create_core_findPair_frame hWF hpair
    by_cases hlk2 : (pop.get_or_create_core g.1 g.2.1).1.1.locked
    · simp only [if_pos hlk2]
      rw [hframe]
      exact hfp
    · simp only [if_neg hlk2]
      obtain ⟨l2, hl2, hg2⟩ := get_or_create_core_index (s := g.1) (t := g.2.1) hWF
      have hWF2 := get_or_create_core_WF (s := g.1) (t := g.2.1) hWF
      have hne2 : ¬(s = ({ _add_synapses (pop.get_or_create_core g.1 g.2.1).1.1
          g.2.2.1 restrict g.2.2.2 with locked := true } : Connection).sgid ∧
          t = g.2.1) := by
        intro hand
        apply hpair
        refine ⟨?_, hand.2⟩
        rw [hand.1]
        exact get_or_create_core_sgid pop g.1 g.2.1
      exact (setConnAt_findPair_frame
        (c := { _add_synapses (pop.get_or_create_core g.1 g.2.1).1.1 g.2.2.1
            restrict g.2.2.2 with locked := true }) hWF2 hl2 hg2 rfl hne2).trans
        (hframe.trans hfp)

/-- After one `connect_group` loop iteration the processed pair's
connection is locked. -/
theorem processGroup_self_locked (restrict : Option Int) {pop : ConnectionSet}
    {g : Int × Int × List SynParams × Nat} (hWF : pop.WF) :
    ∃ c2, (Manager.processGroup restrict pop g).findPair g.1 g.2.1 = some c2 ∧
      c2.locked = true := by
  simp only [Manager.processGroup]
  by_cases hlk : (pop.get_or_create_core g.1 g.2.1).1.1.locked
  · refine ⟨(pop.get_or_create_core g.1 g.2.1).1.1, ?_, hlk⟩
    simp only [if_pos hlk]
    exact get_or_create_core_findPair_self hWF
  · simp only [if_neg hlk]
    obtain ⟨l2, hl2, hg2⟩ := get_or_create_core_index (s := g.1) (t := g.2.1) hWF
    have hWF2 := get_or_create_core_WF (s := g.1) (t := g.2.1) hWF
    have hi : (pop.get_or_create_core g.1 g.2.1).1.2 < l2.length := by
      rcases Nat.lt_or_ge (pop.get_or_create_core g.1 g.2.1).1.2 l2.length with h | h
      · exact h
      · rw [List.get?_eq_getElem?, List.getElem?_eq_none h] at hg2
        cases hg2
    refine ⟨_, findPair_intro (setConnAt_WF hWF2 hl2 hg2 rfl)
      (setConnAt_lookup_self _ _ hl2) (List.get?_mem (get?_set_self _ _ _ hi)) ?_, rfl⟩
    exact get_or_create_core_sgid pop g.1 g.2.1

/-- The `connect_group` loop preserves the set invariant. -/
theorem foldProcess_WF {restrict : Option Int} :
    ∀ (groups : List (Int × Int × List SynParams × Nat)) {pop : ConnectionSet},
      pop.WF → (groups.foldl (Manager.processGroup restrict) pop).WF
  | [], _, h => h
  | _ :: rest, _, h => foldProcess_WF rest (processGroup_WF h)

/-- The `connect_group` loop never touches an already locked connection. -/
theorem foldProcess_preserved {restrict : Option Int} {s t : Int} {c : Connection} :
    ∀ (groups : List (Int × Int × List SynParams × Nat)) {pop : ConnectionSet},
      pop.WF → pop.findPair s t = some c → c.locked = true →
      (groups.foldl (Manager.processGroup restrict) pop).findPair s t = some c
  | [], _, _, hfp, _ => hfp
  | _ :: rest, _, hWF, hfp, hlk =>
    foldProcess_preserved rest (processGroup_WF hWF)
      (processGroup_findPair_preserved hWF hfp hlk) hlk

/-- After the `connect_group` loop every processed pair's connection is
locked. -/
theorem foldProcess_group_locked {restrict : Option Int} :
    ∀ (groups : List (Int × Int × List SynParams × Nat)) {pop : ConnectionSet},
      pop.WF → ∀ {g}, g ∈ groups →
      ∃ c2, (groups.foldl (Manager.processGroup restrict) pop).findPair g.1 g.2.1 =
        some c2 ∧ c2.locked = true
  | [], _, _, _, hmem => absurd hmem (List.not_mem_nil _)
  | g0 :: rest, pop, hWF, g, hmem => by
    rcases List.mem_cons.mp hmem with h | h
    · subst h
      obtain ⟨c2, hc2, hlk2⟩ := processGroup_self_locked restrict hWF
      rw [List.foldl_cons]
      exact ⟨c2, foldProcess_preserved rest (processGroup_WF hWF) hc2 hlk2, hlk2⟩
    · rw [List.foldl_cons]
      exact foldProcess_group_locked rest (processGroup_WF hWF) h

/-- The current population after `connect_group` is the loop's fold over
the yielded groups. -/
theorem connect_group_curPop {m : Manager} {reader : Reader}
    {src_target dst_target : Option Target} {restrict : Option Int}
    (hkey : (alistGet? m.populations m.cur_pop).isSome) :
    (m.connect_group reader src_target dst_target restrict).curPop =
      (_iterate_conn_params reader src_target dst_target m.local_gids).foldl
        (Manager.processGroup restrict) m.curPop := by
  obtain ⟨p, hp⟩ := Option.isSome_iff_exists.mp hkey
  simp only [Manager.connect_group, Manager.curPop, Manager.getPopD, Manager.setPop]
  rw [alistGet?_alistSet_self _ _ hp]
  rfl

/-! ## Claims -/

/-- C1.  For every `ConnectionSet` and every finite sequence of
`get_or_create_connection` calls with integer source ids in arbitrary
order, each per-target-id sequence of connections is at all times (i.e.
after every prefix of the call sequence) strictly sorted ascending by
source id and contains no duplicate source id. -/
theorem get_or_create_sequence_sorted (src_id dst_id : Int) (ops : List (Int × Int))
    (n : Nat) (t : Int) (l : List Connection)
    (hl : alistGet? (applyGetOrCreate (ConnectionSet.init src_id dst_id)
        (ops.take n)).connections_map t = some l) :
    SortedBySgid l ∧ (l.map Connection.sgid).Nodup := by
  have hWF : (applyGetOrCreate (ConnectionSet.init src_id dst_id) (ops.take n)).WF :=
    applyGetOrCreate_WF _ (init_WF src_id dst_id)
  have hs := hWF.sorted_of_lookup hl
  refine ⟨hs, ?_⟩
  have hne : l.Pairwise fun a b => a.sgid ≠ b.sgid :=
    hs.imp fun h => Int.ne_of_lt h
  exact (List.pairwise_map).mpr hne

/-- Witness for C1: an out-of-order, repeating call sequence produces the
sorted duplicate-free sequence `[3, 5, 7]` for target 1. -/
theorem get_or_create_sequence_sorted_witness :
    SortedBySgid [mkConnection 3 1 0 0, mkConnection 5 1 0 0, mkConnection 7 1 0 0] ∧
    ([mkConnection 3 1 0 0, mkConnection 5 1 0 0,
      mkConnection 7 1 0 0].map Connection.sgid).Nodup :=
  get_or_create_sequence_sorted 0 0 [(5, 1), (3, 1), (7, 1), (3, 1)] 4 1
    [mkConnection 3 1 0 0, mkConnection 5 1 0 0, mkConnection 7 1 0 0] (by decide)

/-- C3.  For every `ConnectionSet` satisfying its invariant and every
pair, calling `get_or_create_connection` twice with the same pair returns
the same connection entity both times, and the second call leaves the set
(and hence the connection count) unchanged. -/
theorem get_or_create_idempotent (cs : ConnectionSet) (sgid tgid : Int)
    (hWF : cs.WF) :
    ((cs.get_or_create_connection sgid tgid).2.get_or_create_connection sgid tgid).1 =
      (cs.get_or_create_connection sgid tgid).1 ∧
    ((cs.get_or_create_connection sgid tgid).2.get_or_create_connection sgid tgid).2 =
      (cs.get_or_create_connection sgid tgid).2 ∧
    ((cs.get_or_create_connection sgid tgid).2.get_or_create_connection
        sgid tgid).2.count =
      (cs.get_or_create_connection sgid tgid).2.count := by
  have hWF1 : (cs.get_or_create_connection sgid tgid).2.WF := get_or_create_core_WF hWF
  have hfp1 : (cs.get_or_create_connection sgid tgid).2.findPair sgid tgid =
      some (cs.get_or_create_connection sgid tgid).1 :=
    get_or_create_core_findPair_self hWF
  obtain ⟨i, heq, -⟩ := get_or_create_core_found hWF1 hfp1
  refine ⟨?_, ?_, ?_⟩
  · show ((cs.get_or_create_connection sgid tgid).2.get_or_create_core
        sgid tgid).1.1 = _
    rw [heq]
  · show ((cs.get_or_create_connection sgid tgid).2.get_or_create_core
        sgid tgid).2 = _
    rw [heq]
  · show ((cs.get_or_create_connection sgid tgid).2.get_or_create_core
        sgid tgid).2.count = _
    rw [heq]

/-- Witness for C3 at a concrete set. -/
theorem get_or_create_idempotent_witness :
    (((applyGetOrCreate (ConnectionSet.init 0 0)
          [(3, 1), (7, 1)]).get_or_create_connection 3 1).2.get_or_create_connection
        3 1).1 =
      ((applyGetOrCreate (ConnectionSet.init 0 0)
          [(3, 1), (7, 1)]).get_or_create_connection 3 1).1 ∧
    (((applyGetOrCreate (ConnectionSet.init 0 0)
          [(3, 1), (7, 1)]).get_or_create_connection 3 1).2.get_or_create_connection
        3 1).2 =
      ((applyGetOrCreate (ConnectionSet.init 0 0)
          [(3, 1), (7, 1)]).get_or_create_connection 3 1).2 ∧
    (((applyGetOrCreate (ConnectionSet.init 0 0)
          [(3, 1), (7, 1)]).get_or_create_connection 3 1).2.get_or_create_connection
        3 1).2.count =
      ((applyGetOrCreate (ConnectionSet.init 0 0)
          [(3, 1), (7, 1)]).get_or_create_connection 3 1).2.count :=
  get_or_create_idempotent (applyGetOrCreate (ConnectionSet.init 0 0) [(3, 1), (7, 1)])
    3 1 (by decide)

/-- C2.  For a target cell whose synapse-parameter table has source-id
column `[3,3,3,5,5,7]` and no source or destination filter, the streaming
iterator yields exactly three groups, of sizes 3, 2 and 1 in that order,
with start offsets 0, 3 and 5: maximal runs of identical source id are
detected, including the length-1 final run bounded by the table end. -/
theorem iterate_conn_params_sorted_table_groups :
    _iterate_conn_params
        (fun _ => [⟨3, 0⟩, ⟨3, 0⟩, ⟨3, 0⟩, ⟨5, 0⟩, ⟨5, 0⟩, ⟨7, 0⟩]) none none [1] =
      [(3, 1, [⟨3, 0⟩, ⟨3, 0⟩, ⟨3, 0⟩], 0),
       (5, 1, [⟨5, 0⟩, ⟨5, 0⟩], 3),
       (7, 1, [⟨7, 0⟩], 5)] ∧
    (_iterate_conn_params
        (fun _ => [⟨3, 0⟩, ⟨3, 0⟩, ⟨3, 0⟩, ⟨5, 0⟩, ⟨5, 0⟩, ⟨7, 0⟩]) none none [1]).map
        (fun g => (g.2.2.1.length, g.2.2.2)) = [(3, 0), (2, 3), (1, 5)] := by
  constructor <;>
    simp [_iterate_conn_params, runsFrom, dstAdmits, srcAdmits,
      List.takeWhile, List.dropWhile]

/-- C4.  During `connect_group`, a connection whose locked flag is already
true receives no additional synapses — its yielded group is skipped
entirely, so its stored value (synapses included) is unchanged — and
every connection whose pair occurs among the yielded groups (which covers
every connection `connect_group` populates) has `locked = true`
afterwards. -/
theorem connect_group_locked_skip_and_lock (m : Manager) (reader : Reader)
    (src_target dst_target : Option Target) (synapse_type_restrict : Option Int)
    (hkey : (alistGet? m.populations m.cur_pop).isSome = true)
    (hWF : m.curPop.WF) :
    (∀ s t c, m.curPop.findPair s t = some c → c.locked = true →
      (m.connect_group reader src_target dst_target
          synapse_type_restrict).curPop.findPair s t = some c) ∧
    (∀ g ∈ _iterate_conn_params reader src_target dst_target m.local_gids,
      ∃ c2, (m.connect_group reader src_target dst_target
          synapse_type_restrict).curPop.findPair g.1 g.2.1 = some c2 ∧
        c2.locked = true) := by
  rw [connect_group_curPop hkey]
  exact ⟨fun s t c hfp hlk => foldProcess_preserved _ hWF hfp hlk,
    fun g hg => foldProcess_group_locked _ hWF hg⟩

/-- Witness for C4: one target cell with table source ids `[3, 3, 5]`, a
pre-existing locked connection `(3, 1)` with one synapse, no filters. -/
theorem connect_group_locked_skip_and_lock_witness :
    ((∀ s t c,
        ({ populations :=
             [((0, 0),
               { src_id := 0, dst_id := 0,
                 connections_map :=
                   [(1, [{ sgid := 3, tgid := 1, src_pop_id := 0, dst_pop_id := 0,
                           weight_factor := 1, locked := true, disabled := false,
                           synapses := [(⟨3, 0⟩, 0)] }])],
                 conn_count := 1 })],
           cur_pop := (0, 0), disabled_conns := [], total_connections := 1,
           local_gids := [1] } : Manager).curPop.findPair s t = some c →
        c.locked = true →
        (Manager.connect_group
            { populations :=
                [((0, 0),
                  { src_id := 0, dst_id := 0,
                    connections_map :=
                      [(1, [{ sgid := 3, tgid := 1, src_pop_id := 0, dst_pop_id := 0,
                              weight_factor := 1, locked := true, disabled := false,
                              synapses := [(⟨3, 0⟩, 0)] }])],
                    conn_count := 1 })],
              cur_pop := (0, 0), disabled_conns := [], total_connections := 1,
              local_gids := [1] }
            (fun _ => [⟨3, 0⟩, ⟨3, 0⟩, ⟨5, 0⟩]) none none
            none).curPop.findPair s t = some c) ∧
      (∀ g ∈ _iterate_conn_params (fun _ => [⟨3, 0⟩, ⟨3, 0⟩, ⟨5, 0⟩]) none none [1],
        ∃ c2, (Manager.connect_group
            { populations :=
                [((0, 0),
                  { src_id := 0, dst_id := 0,
                    connections_map :=
                      [(1, [{ sgid := 3, tgid := 1, src_pop_id := 0, dst_pop_id := 0,
                              weight_factor := 1, locked := true, disabled := false,
                              synapses := [(⟨3, 0⟩, 0)] }])],
                    conn_count := 1 })],
              cur_pop := (0, 0), disabled_conns := [], total_connections := 1,
              local_gids := [1] }
            (fun _ => [⟨3, 0⟩, ⟨3, 0⟩, ⟨5, 0⟩]) none none
            none).curPop.findPair g.1 g.2.1 = some c2 ∧ c2.locked = true)) :=
  connect_group_locked_skip_and_lock
    { populations :=
        [((0, 0),
          { src_id := 0, dst_id := 0,
            connections_map :=
              [(1, [{ sgid := 3, tgid := 1, src_pop_id := 0, dst_pop_id := 0,
                      weight_factor := 1, locked := true, disabled := false,
                      synapses := [(⟨3, 0⟩, 0)] }])],
            conn_count := 1 })],
      cur_pop := (0, 0), disabled_conns := [], total_connections := 1,
      local_gids := [1] }
    (fun _ => [⟨3, 0⟩, ⟨3, 0⟩, ⟨5, 0⟩]) none none none (by rfl) (by decide)

/-- C5.  On a `ConnectionSet` populated with exactly the connections
`(3,1), (5,1), (5,2), (7,2)`, `delete_group` with `post_gids = None` and
`pre_gids = [5]` removes exactly `(5,1)` and `(5,2)`, leaving the other
two connections with their order preserved and a count of 2. -/
theorem delete_group_sources_five :
    (applyGetOrCreate (ConnectionSet.init 0 0)
        [(3, 1), (5, 1), (5, 2), (7, 2)]).delete_group .all (.many [5]) =
      { src_id := 0, dst_id := 0,
        connections_map := [(1, [mkConnection 3 1 0 0]), (2, [mkConnection 7 2 0 0])],
        conn_count := 2 } := by
  rfl

/-- C6.  `finalize` visits every population and every locally owned target
cell's connection list in reverse creation order (the recorded callback
trace for a cell is the reverse of its connection list, and the local
count totals the callback successes over every population and cell), and
returns the collective sum over all ranks of the per-rank counts: local
counts `[4, 0, 3]` reduce to a global total of 7. -/
theorem finalize_reverse_order_and_global_sum :
    (∀ (f : Connection → Bool) (conns : List Connection),
        (_finalize_conns f conns).2 = conns.reverse ∧
          (_finalize_conns f conns).1 = conns.countP f) ∧
    (∀ (m : Manager) (f : Int → Connection → Bool),
        finalizeLocal m f =
          (m.populations.map fun kp =>
            (kp.2.connections_map.map fun tc => tc.2.countP (f tc.1)).sum).sum) ∧
    (∀ (ranks : List Manager) (f : Int → Connection → Bool),
        finalizeGlobal ranks f = mpiAllreduceSum (ranks.map fun m => finalizeLocal m f)) ∧
    mpiAllreduceSum [4, 0, 3] = 7 := by
  refine ⟨fun f conns => ?_, finalizeLocal_closed, fun _ _ => rfl, rfl⟩
  rw [_finalize_conns_eq]
  exact ⟨rfl, rfl⟩

/-- C8.  If exactly one `Connection` rule matches the current population
and that rule specifies a weight scaling factor of zero,
`create_connections` creates no connections at all: its trace of creation
calls is empty. -/
theorem create_connections_single_zero_weight_skips (rules : List ConnRule)
    (matchp : ConnRule → Bool) (r : ConnRule)
    (hm : rules.filter matchp = [r]) (hw : r.weight = some 0) :
    create_connections rules matchp = [] := by
  rw [create_connections, hm]
  simp [hw]

/-- Witness for C8 at a concrete rule list. -/
theorem create_connections_single_zero_weight_skips_witness :
    create_connections
        [{ source := "A", destination := "B", weight := some 0,
           hasDelay := false, noCreate := false, synapseId := none }]
        (fun _ => true) = [] :=
  create_connections_single_zero_weight_skips _ _
    { source := "A", destination := "B", weight := some 0,
      hasDelay := false, noCreate := false, synapseId := none }
    (by rfl) rfl

/-- C9.  For a target id that was never stored, `get_connection` returns
`None` but, through the `defaultdict` read in `_find_connection`, inserts
an empty entry for the target id, so that afterwards the membership test
`tgid in connection_set` is true even though the target has no
connections. -/
theorem get_connection_fresh_target_inserts_key (cs : ConnectionSet) (sgid tgid : Int)
    (h : cs.containsTgid tgid = false) :
    (cs.get_connection sgid tgid).1 = none ∧
    ((cs.get_connection sgid tgid).2.containsTgid tgid = true ∧
      alistGet? (cs.get_connection sgid tgid).2.connections_map tgid = some []) := by
  have hn : alistGet? cs.connections_map tgid = none := by
    rw [ConnectionSet.containsTgid] at h
    exact Option.not_isSome_iff_eq_none.mp (by simp [h])
  have happ := alistGet?_append_self cs.connections_map tgid ([] : List Connection) hn
  rw [ConnectionSet.get_connection, ConnectionSet.get_connection_core,
      ConnectionSet._find_connection, alistGetD, hn]
  refine ⟨rfl, ?_, ?_⟩ <;> simp [ConnectionSet.containsTgid, happ]

/-- Witness for C9 at a concrete fresh set. -/
theorem get_connection_fresh_target_inserts_key_witness :
    (ConnectionSet.init 0 0).containsTgid 9 = false ∧
    (((ConnectionSet.init 0 0).get_connection 4 9).1 = none ∧
      (((ConnectionSet.init 0 0).get_connection 4 9).2.containsTgid 9 = true ∧
        alistGet? ((ConnectionSet.init 0 0).get_connection 4 9).2.connections_map 9 =
          some [])) :=
  ⟨rfl, get_connection_fresh_target_inserts_key (ConnectionSet.init 0 0) 4 9 rfl⟩

/-- `reenable` on the state produced by `disable` restores the population
registry (the connection with identical attributes), keeps the total
count, and removes the registry entry appended by `disable`. -/
theorem reenable_after_disable (m : Manager) (k : Int × Int) (P : ConnectionSet)
    (sgid tgid : Int) (c : Connection) (i : Nat) (l : List Connection)
    (dl0 : List Connection)
    (hpops : m.populations = [(k, P.setConnAt tgid i (c.disableConn false))])
    (hk : k = (P.src_id, P.dst_id))
    (hWF : P.WF) (hl : alistGet? P.connections_map tgid = some l)
    (hgi : l.get? i = some c) (he : c.sgid = sgid) (hdis : c.disabled = false)
    (hpopid : c.population_id = (P.src_id, P.dst_id))
    (hreglook : alistGet? m.disabled_conns tgid =
      some (dl0 ++ [c.disableConn false]))
    (hreg : ∀ x ∈ dl0, x.sgid ≠ sgid) :
    (m.reenable sgid tgid .all).populations = [(k, P)] ∧
    (m.reenable sgid tgid .all).total_connections = m.total_connections ∧
    alistGet? (m.reenable sgid tgid .all).disabled_conns tgid = some dl0 := by
  obtain ⟨hsrc, hdst, hcnt⟩ := setConnAt_fields P tgid i (c.disableConn false)
  have hpop2 : P.setConnAt tgid i (c.disableConn false) =
      { P with connections_map :=
          alistSet P.connections_map tgid (l.set i (c.disableConn false)) } := by
    simp [ConnectionSet.setConnAt, hl]
  have hpl : ∀ (j : Nat), ∀ x ∈ dl0,
      (x.sgid == sgid &&
        decide (x.population_id ∈ [(P.src_id, P.dst_id)])) = false := by
    intro j x hx
    have h1 : (x.sgid == sgid) = false := by
      simp [hreg x hx]
    rw [h1, Bool.false_and]
  have hpa : ∀ (j : Nat),
      ((c.disableConn false).sgid == sgid &&
        decide ((c.disableConn false).population_id ∈
          [(P.src_id, P.dst_id)])) = true := by
    intro j
    have h1 : ((c.disableConn false).sgid == sgid) = true := by
      simp [Connection.disableConn, he]
    have h2 : decide ((c.disableConn false).population_id ∈
        [(P.src_id, P.dst_id)]) = true := by
      apply decide_eq_true
      have : (c.disableConn false).population_id = (P.src_id, P.dst_id) := hpopid
      rw [this]
      exact List.mem_singleton.mpr rfl
    rw [h1, h2, Bool.and_self]
  have hcDk : (c.disableConn false).population_id = k := by
    rw [hk]
    exact hpopid
  have hlookpop : alistGet? ([(k, P.setConnAt tgid i (c.disableConn false))] :
      List ((Int × Int) × ConnectionSet)) k =
      some (P.setConnAt tgid i (c.disableConn false)) := by
    simp [alistGet?]
  simp only [Manager.reenable, find_populations_all, hpops, List.map_cons,
    List.map_nil, hsrc, hdst, alistGetD, hreglook]
  rw [enum_filter_last _ dl0 _ (fun j x hx => hpl j x hx) hpa]
  simp only [List.foldl_cons, List.foldl_nil, Manager.enableInPop, hcDk, hpops,
    hlookpop]
  simp only [setConnAt_lookup_self i (c.disableConn false) hl,
    enable_map_restore (hWF.sorted_of_lookup hl) hgi he hdis]
  have hpopXgen : ∀ q : ConnectionSet, q = P.setConnAt tgid i (c.disableConn false) →
      ({ q with connections_map := alistSet q.connections_map tgid l } :
        ConnectionSet) = P := by
    intro q hq
    rw [hq, hpop2]
    show ({ P with
            connections_map :=
              alistSet
                (alistSet P.connections_map tgid (l.set i (c.disableConn false)))
                tgid l } : ConnectionSet) = P
    rw [alistSet_alistSet, alistSet_same _ hl]
  have hpopX := hpopXgen _ rfl
  simp only [Manager.setPop, hpopX, List.map_cons, List.map_nil, np_delete_last]
  refine ⟨?_, trivial, ?_⟩
  · show alistSet [(k, P.setConnAt tgid i (c.disableConn false))] k P = [(k, P)]
    simp [alistSet]
  · show alistGet? (alistSet m.disabled_conns tgid dl0) tgid = some dl0
    exact alistGet?_alistSet_self _ _ hreglook

/-- C7.  For a connection `(sgid, tgid)` present (and enabled) in the
active `ConnectionSet`, `disable` registers it, disabled, in the disabled
registry, and a subsequent `reenable` restores the active set to exactly
its prior contents — the connection with identical attributes — and
removes the registry entry again; the manager's connection count taken
before `disable` equals the count taken after `reenable`. -/
theorem disable_reenable_roundtrip (m : Manager) (k : Int × Int)
    (P : ConnectionSet) (sgid tgid : Int) (c : Connection)
    (hpops : m.populations = [(k, P)])
    (hk : k = (P.src_id, P.dst_id))
    (hWF : P.WF)
    (hfp : P.findPair sgid tgid = some c)
    (hdis : c.disabled = false)
    (hpopid : c.population_id = (P.src_id, P.dst_id))
    (hreg : ∀ x ∈ (alistGet? m.disabled_conns tgid).getD [], x.sgid ≠ sgid) :
    ∃ m2, m.disable sgid tgid false .all = Except.ok m2 ∧
      alistGet? m2.disabled_conns tgid =
        some ((alistGet? m.disabled_conns tgid).getD [] ++ [c.disableConn false]) ∧
      (m2.reenable sgid tgid .all).populations = [(k, P)] ∧
      (m2.reenable sgid tgid .all).getPopD k = P ∧
      (m2.reenable sgid tgid .all).total_connections = m.total_connections ∧
      alistGet? (m2.reenable sgid tgid .all).disabled_conns tgid =
        some ((alistGet? m.disabled_conns tgid).getD []) := by
  obtain ⟨i, l, hcore, hl, hgi, hlen⟩ := get_connection_core_some hWF hfp
  have he : c.sgid = sgid := by
    obtain ⟨l0, hl0, hc0, he0⟩ := findPair_some_elim hfp
    exact he0
  have hlookP : alistGet? m.populations k = some P := by
    rw [hpops]
    simp [alistGet?]
  have hfindall : m.find_populations .all = [(k, P)] := by
    rw [find_populations_all, hpops]
  have hgetP : m.getPopD k = P := by
    rw [Manager.getPopD, hlookP]
    rfl
  have hsetP : m.setPop k P = m := by
    rw [Manager.setPop, alistSet_same _ hlookP]
  have hdisable : m.disable sgid tgid false .all =
      Except.ok { m.setPop k (P.setConnAt tgid i (c.disableConn false)) with
        disabled_conns :=
          Manager.registryAppend m.disabled_conns tgid (c.disableConn false) } := by
    rw [Manager.disable, hfindall, List.map_cons, List.map_nil]
    simp only [Manager.disableLoop, hgetP, hcore]
    rw [hsetP]
  refine ⟨_, hdisable, registryAppend_lookup _ _ _, ?_⟩
  have hpops2 : ({ m.setPop k (P.setConnAt tgid i (c.disableConn false)) with
      disabled_conns :=
        Manager.registryAppend m.disabled_conns tgid (c.disableConn false) } :
        Manager).populations =
      [(k, P.setConnAt tgid i (c.disableConn false))] := by
    show alistSet m.populations k (P.setConnAt tgid i (c.disableConn false)) = _
    rw [hpops]
    simp [alistSet]
  obtain ⟨h1, h2, h3⟩ := reenable_after_disable
    { m.setPop k (P.setConnAt tgid i (c.disableConn false)) with
      disabled_conns :=
        Manager.registryAppend m.disabled_conns tgid (c.disableConn false) }
    k P sgid tgid c i l ((alistGet? m.disabled_conns tgid).getD []) hpops2 hk hWF
    hl hgi he hdis hpopid (registryAppend_lookup _ _ _) hreg
  refine ⟨h1, ?_, h2, h3⟩
  rw [Manager.getPopD, h1]
  simp [alistGet?]

/-- Witness for C7: a manager holding one population with the single
connection `(3, 1)`. -/
theorem disable_reenable_roundtrip_witness :
    ∃ m2,
      ({ populations :=
           [((0, 0), applyGetOrCreate (ConnectionSet.init 0 0) [(3, 1)])],
         cur_pop := (0, 0), disabled_conns := [], total_connections := 0,
         local_gids := [1] } : Manager).disable 3 1 false .all = Except.ok m2 ∧
      alistGet? m2.disabled_conns 1 =
        some ((alistGet? ([] : List (Int × List Connection)) 1).getD [] ++
          [(mkConnection 3 1 0 0).disableConn false]) ∧
      (m2.reenable 3 1 .all).populations =
        [((0, 0), applyGetOrCreate (ConnectionSet.init 0 0) [(3, 1)])] ∧
      (m2.reenable 3 1 .all).getPopD (0, 0) =
        applyGetOrCreate (ConnectionSet.init 0 0) [(3, 1)] ∧
      (m2.reenable 3 1 .all).total_connections = 0 ∧
      alistGet? (m2.reenable 3 1 .all).disabled_conns 1 =
        some ((alistGet? ([] : List (Int × List Connection)) 1).getD []) :=
  disable_reenable_roundtrip
    { populations := [((0, 0), applyGetOrCreate (ConnectionSet.init 0 0) [(3, 1)])],
      cur_pop := (0, 0), disabled_conns := [], total_connections := 0,
      local_gids := [1] }
    (0, 0) (applyGetOrCreate (ConnectionSet.init 0 0) [(3, 1)]) 3 1
    (mkConnection 3 1 0 0) rfl (by decide) (by decide) (by decide) rfl rfl
    (by decide)

/-- C10.  If the pair `(sgid, tgid)` is absent from every population
matched by the selector (and the selector does match at least one
population, so that a lookup happens), `ConnectionManagerBase.disable`
raises — the lookup yields no connection object and `c.disable(...)`
dereferences `None` — rather than reporting a warning and continuing, and
the disabled registry is left unchanged by the failed call. -/
theorem disable_missing_pair_raises (m : Manager) (sgid tgid : Int)
    (also_zero_conductance : Bool) (population_ids : Manager.PopSel)
    (hkeys : (m.populations.map Prod.fst).Nodup)
    (hWFall : ∀ kp ∈ m.find_populations population_ids, kp.2.WF)
    (habs : ∀ kp ∈ m.find_populations population_ids,
      kp.2.findPair sgid tgid = none)
    (hne : m.find_populations population_ids ≠ []) :
    ∃ m2, m.disable sgid tgid also_zero_conductance population_ids =
        Except.error m2 ∧
      m2.disabled_conns = m.disabled_conns := by
  cases hfp2 : m.find_populations population_ids with
  | nil => exact absurd hfp2 hne
  | cons kp rest =>
    have hmem : kp ∈ m.find_populations population_ids :=
      hfp2 ▸ List.mem_cons_self _ _
    have hlook : alistGet? m.populations kp.1 = some kp.2 :=
      find_populations_lookup hkeys hmem
    have hnone : (kp.2.get_connection_core sgid tgid).1 = none :=
      get_connection_core_none (hWFall kp hmem) (habs kp hmem)
    have hget : m.getPopD kp.1 = kp.2 := by
      rw [Manager.getPopD, hlook]
      rfl
    refine ⟨m.setPop kp.1 (kp.2.get_connection_core sgid tgid).2, ?_, rfl⟩
    rw [Manager.disable, hfp2, List.map_cons]
    simp only [Manager.disableLoop, hget, hnone]

/-- Witness for C10: a fresh manager holding only the default population,
with the pair `(4, 9)` never stored. -/
theorem disable_missing_pair_raises_witness :
    ∃ m2, (Manager.init [1]).disable 4 9 false .all = Except.error m2 ∧
      m2.disabled_conns = (Manager.init [1]).disabled_conns :=
  disable_missing_pair_raises (Manager.init [1]) 4 9 false .all (by decide)
    (by decide) (by decide) (by decide)

end Neurodamus
